import Mathlib

/-!
Verification of the morphic mesh-refinement engine.

The definitions below are a shallow embedding of `src/morphic/refinement.py`
(and supporting pieces of the data model described in the project
specification).  Coordinates are modelled with exact rationals `ℚ`; the
Python dictionary used for point deduplication is modelled as a list of
keys in insertion order, where the index assigned to a key is its position
in that list.  Fallible operations (functions that raise in Python) return
`Option`, with `none` standing for the raised error.
-/

set_option autoImplicit false

namespace Morphic

/-- Embedding of `np.linspace a b n` over exact rationals: `n` evenly spaced
samples from `a` to `b` inclusive (for `n = 1`, just `[a]`, matching numpy). -/
def linspace (a b : ℚ) (n : Nat) : List ℚ :=
  (List.range n).map (fun i : Nat => a + (b - a) * (i : ℚ) / ((n : ℚ) - 1))

/-- Embedding of `refinement.get_num_elem_nodes`: number of element nodes per axis for a
basis descriptor; `none` models the `ValueError` raised for every other
basis (only uniform 3D Lagrange bases up to cubic are supported). -/
def get_num_elem_nodes (basis : List String) : Option (List Nat) :=
  if basis = ["L1", "L1", "L1"] then some [2, 2, 2]
  else if basis = ["L2", "L2", "L2"] then some [3, 3, 3]
  else if basis = ["L3", "L3", "L3"] then some [4, 4, 4]
  else none

/-- Embedding of `refinement.generate_xi_grid`: the grid of parametric points produced by
`np.meshgrid` + reshape + transpose.  For `dim = 3` the source stacks the
flattened `meshgrid(xi1, xi2, xi3)` arrays in the order `(Z, X, Y)`; with
numpy's default `xy` indexing the flat enumeration runs the `xi2` index
slowest, then the `xi1` index, then the `xi3` index fastest, and row
`(j, i, k)` is `[xi3[k], xi1[i], xi2[j]]`.  For `dim = 2` the stacking order
is `(X, Y)` and row `(j, i)` is `[xi1[i], xi2[j]]`. -/
def generate_xi_grid (num_points : List Nat) (dim : Nat) : List (List ℚ) :=
  let xi1 := linspace 0 1 (num_points.getD 0 0)
  let xi2 := linspace 0 1 (num_points.getD 1 0)
  if dim = 2 then
    xi2.flatMap (fun b => xi1.map (fun a => [a, b]))
  else
    let xi3 := linspace 0 1 (num_points.getD 2 0)
    xi2.flatMap (fun b => xi1.flatMap (fun a => xi3.map (fun c => [c, a, b])))

/-- Modelled from the spec: resolution of one 1D basis identifier to its
polynomial order (§4.2; the implementing module `mesher.py` is not under
`src/`).  Orders 1–3 Lagrange are the supported bases. -/
def basisOrder : String → Option Nat
  | "L1" => some 1
  | "L2" => some 2
  | "L3" => some 3
  | _ => none

/-- Modelled from the spec: the 1D Lagrange weight of order `o` for local
node `a`, evaluated at `x`; nodes sit at the equally spaced parametric
positions `m / o` for `m` in `0..o` (§4.2). -/
def lagrangeWeight (o : Nat) (a : Nat) (x : ℚ) : ℚ :=
  (((List.range (o + 1)).filter (fun m => m ≠ a)).map
    (fun m => (x - (m : ℚ) / o) / ((a : ℚ) / o - (m : ℚ) / o))).prod

/-- Componentwise sum of two coordinate vectors. -/
def vecAdd (u v : List ℚ) : List ℚ :=
  List.zipWith (fun a b => a + b) u v

/-- Scalar multiple of a coordinate vector. -/
def vecSmul (c : ℚ) (v : List ℚ) : List ℚ :=
  v.map (fun a => c * a)

/-- Modelled from the spec: the tensor-product weight of the flat local node
index `m` at parametric point `xi` (§4.2).  The flat ordering runs the xi1
local index fastest and the xi3 local index slowest — the same canonical
ordering in which `generate_xi_grid` enumerates its rows, which is the
convention the refinement engine relies on. -/
def tensorWeight (o1 o2 o3 : Nat) (m : Nat) (xi : List ℚ) : ℚ :=
  lagrangeWeight o1 (m % (o1 + 1)) (xi.getD 0 0) *
    lagrangeWeight o2 (m / (o1 + 1) % (o2 + 1)) (xi.getD 1 0) *
    lagrangeWeight o3 (m / ((o1 + 1) * (o2 + 1))) (xi.getD 2 0)

/-- Modelled from the spec: one physical point as the weighted combination
of the element's node values (§4.2). -/
def elemEvalPoint (o1 o2 o3 : Nat) (nodeVals : List (List ℚ)) (xi : List ℚ) :
    List ℚ :=
  (List.range ((o1 + 1) * (o2 + 1) * (o3 + 1))).foldl
    (fun acc m => vecAdd acc (vecSmul (tensorWeight o1 o2 o3 m xi) (nodeVals.getD m [])))
    (List.replicate (nodeVals.headD []).length 0)

/-- Modelled from the spec: a generated mesh element as seen by the
refinement engine — its basis descriptor and its nodes' (already resolved)
value vectors, in canonical local order (§3, §4.2; `mesher.py` is not under
`src/`). -/
structure MElement where
  basis : List String
  nodeVals : List (List ℚ)
deriving DecidableEq, Repr

/-- Modelled from the spec: resolution of an element's basis descriptor to
its three per-axis polynomial orders; `none` models `UnsupportedBasis`
(§4.2). -/
def elemBasisOrders (e : MElement) : Option (Nat × Nat × Nat) :=
  match e.basis with
  | [b1, b2, b3] =>
    match basisOrder b1, basisOrder b2, basisOrder b3 with
    | some o1, some o2, some o3 => some (o1, o2, o3)
    | _, _, _ => none
  | _ => none

/-- Modelled from the spec: `Element.evaluate` on a batch of parametric
points; fails (`none`, modelling `UnsupportedBasis`) when the element's own
basis descriptor cannot be resolved (§4.2). -/
def elemEvaluate (e : MElement) (xiPoints : List (List ℚ)) :
    Option (List (List ℚ)) :=
  (elemBasisOrders e).map (fun o =>
    xiPoints.map (elemEvalPoint o.1 o.2.1 o.2.2 e.nodeVals))

/-- First position of `x` in a list (the index a Python insertion-ordered
dict assigns to key `x` when the list collects keys in insertion order). -/
def posOf {α : Type} [DecidableEq α] (x : α) : List α → Nat
  | [] => 0
  | y :: ys => if y = x then 0 else posOf x ys + 1

/-- The sub-interval endpoints `(n / fac, (n + 1) / fac)` for `n` in
`0..fac-1`, as built by each refinement function. -/
def elem_partitions (fac : Nat) : List (ℚ × ℚ) :=
  (List.range fac).map (fun n : Nat => ((n : ℚ) / fac, ((n : ℚ) + 1) / fac))

/-- The remapped grids of `mesh_refine_along_xi1`: for each sub-interval
`b`, column 0 of the grid is sent through `xi * (hi - lo) + lo` and the
other columns are kept. -/
def xi_partitions_xi1 (xi_grid : List (List ℚ)) (fac : Nat) :
    List (List (List ℚ)) :=
  (elem_partitions fac).map (fun b =>
    xi_grid.map (fun row =>
      [row.getD 0 0 * (b.2 - b.1) + b.1, row.getD 1 0, row.getD 2 0]))

/-- The remapped grids of `mesh_refine_along_xi2` (column 1 remapped). -/
def xi_partitions_xi2 (xi_grid : List (List ℚ)) (fac : Nat) :
    List (List (List ℚ)) :=
  (elem_partitions fac).map (fun b =>
    xi_grid.map (fun row =>
      [row.getD 0 0, row.getD 1 0 * (b.2 - b.1) + b.1, row.getD 2 0]))

/-- The remapped grids of `mesh_refine_along_xi3` (column 2 remapped). -/
def xi_partitions_xi3 (xi_grid : List (List ℚ)) (fac : Nat) :
    List (List (List ℚ)) :=
  (elem_partitions fac).map (fun b =>
    xi_grid.map (fun row =>
      [row.getD 0 0, row.getD 1 0, row.getD 2 0 * (b.2 - b.1) + b.1]))

/-- The remapped grids of `full_refinement`: the cross product of the three
per-axis partition lists, xi1 outermost, xi2 middle, xi3 innermost, each
combination remapping all three grid columns. -/
def xi_partitions_full (xi_grid : List (List ℚ)) (facs : List Nat) :
    List (List (List ℚ)) :=
  (elem_partitions (facs.getD 0 0)).flatMap (fun b1 =>
    (elem_partitions (facs.getD 1 0)).flatMap (fun b2 =>
      (elem_partitions (facs.getD 2 0)).map (fun b3 =>
        xi_grid.map (fun row =>
          [row.getD 0 0 * (b1.2 - b1.1) + b1.1,
           row.getD 1 0 * (b2.2 - b2.1) + b2.1,
           row.getD 2 0 * (b3.2 - b3.1) + b3.1]))))

/-- The shared refinement loop of all four refinement functions: iterate
over elements (outer) and remapped grids (inner), evaluate, and thread the
deduplication mapping.  A point absent from the mapping is appended (its
index is the mapping's size at that moment, i.e. its position); every
evaluated point contributes its mapped index to the sub-element's node-id
list.  Returns the mapping keys in insertion order (`refined_xn`) and the
per-sub-element index lists (`refined_xe`); `none` when an element
evaluation fails. -/
def refineCore (elems : List MElement) (xiPartitions : List (List (List ℚ))) :
    Option (List (List ℚ) × List (List Nat)) :=
  elems.foldl
    (fun acc e =>
      xiPartitions.foldl
        (fun acc2 part =>
          acc2.bind (fun st =>
            (elemEvaluate e part).map (fun pts =>
              let inner := pts.foldl
                (fun st2 node =>
                  if node ∈ st2.1 then (st2.1, st2.2 ++ [posOf node st2.1])
                  else (st2.1 ++ [node], st2.2 ++ [st2.1.length]))
                (st.1, ([] : List Nat))
              (inner.1, st.2 ++ [inner.2]))))
        acc)
    (some (([] : List (List ℚ)), ([] : List (List Nat))))

/-- Modelled from the spec: the observable result of the Mesh construction
path used by `create_morphic_mesh` — node (id, value) pairs, element
(id, basis, node-id list) triples, and the generated flag (§3, §6;
`mesher.py` is not under `src/`). -/
structure MMesh where
  nodes : List (Nat × List ℚ)
  elements : List (Nat × List String × List Nat)
  generated : Bool
deriving DecidableEq, Repr

/-- Embedding of `refinement.create_morphic_mesh`: adds node `i` of `xn` with id `i + 1`,
element `i` of `xe` with id `i + 1`, the given basis and the node ids
`xe[i] + 1`, then calls `generate(True)`. -/
def create_morphic_mesh (basis : List String) (xn : List (List ℚ))
    (xe : List (List Nat)) : MMesh :=
  ⟨(List.range xn.length).map (fun i => (i + 1, xn.getD i [])),
   (List.range xe.length).map (fun i => (i + 1, basis, (xe.getD i []).map (· + 1))),
   true⟩

/-- Embedding of `refinement.mesh_refine_along_xi1`. -/
def mesh_refine_along_xi1 (elems : List MElement) (basis : List String)
    (fac : Nat) : Option (MMesh × List (List ℚ) × List (List Nat)) :=
  (get_num_elem_nodes basis).bind (fun num_elem_nodes =>
    let xi_grid := generate_xi_grid num_elem_nodes 3
    (refineCore elems (xi_partitions_xi1 xi_grid fac)).map (fun r =>
      (create_morphic_mesh basis r.1 r.2, r.1, r.2)))

/-- Embedding of `refinement.mesh_refine_along_xi2`. -/
def mesh_refine_along_xi2 (elems : List MElement) (basis : List String)
    (fac : Nat) : Option (MMesh × List (List ℚ) × List (List Nat)) :=
  (get_num_elem_nodes basis).bind (fun num_elem_nodes =>
    let xi_grid := generate_xi_grid num_elem_nodes 3
    (refineCore elems (xi_partitions_xi2 xi_grid fac)).map (fun r =>
      (create_morphic_mesh basis r.1 r.2, r.1, r.2)))

/-- Embedding of `refinement.mesh_refine_along_xi3`. -/
def mesh_refine_along_xi3 (elems : List MElement) (basis : List String)
    (fac : Nat) : Option (MMesh × List (List ℚ) × List (List Nat)) :=
  (get_num_elem_nodes basis).bind (fun num_elem_nodes =>
    let xi_grid := generate_xi_grid num_elem_nodes 3
    (refineCore elems (xi_partitions_xi3 xi_grid fac)).map (fun r =>
      (create_morphic_mesh basis r.1 r.2, r.1, r.2)))

/-- Embedding of `refinement.full_refinement`. -/
def full_refinement (elems : List MElement) (basis : List String)
    (facs : List Nat) : Option (MMesh × List (List ℚ) × List (List Nat)) :=
  (get_num_elem_nodes basis).bind (fun num_elem_nodes =>
    let xi_grid := generate_xi_grid num_elem_nodes 3
    (refineCore elems (xi_partitions_full xi_grid facs)).map (fun r =>
      (create_morphic_mesh basis r.1 r.2, r.1, r.2)))

/-- The mapping part of the deduplication loop, isolated: fold points into
an insertion-ordered key list, appending each point not yet present. -/
def dedupFold (m : List (List ℚ)) (pts : List (List ℚ)) : List (List ℚ) :=
  pts.foldl (fun acc p => if p ∈ acc then acc else acc ++ [p]) m

/-- The deduplication loop of `refineCore` over an explicit list of
evaluated point chunks (one chunk per (element × partition) pair). -/
def dedupChunks (st : List (List ℚ) × List (List Nat))
    (chunks : List (List (List ℚ))) : List (List ℚ) × List (List Nat) :=
  chunks.foldl
    (fun st chunk =>
      let inner := chunk.foldl
        (fun st2 node =>
          if node ∈ st2.1 then (st2.1, st2.2 ++ [posOf node st2.1])
          else (st2.1 ++ [node], st2.2 ++ [st2.1.length]))
        (st.1, ([] : List Nat))
      (inner.1, st.2 ++ [inner.2]))
    st

/-- The evaluated point chunks of a refinement run, one chunk per
(source element × partition) pair, elements outer. -/
def refinedChunks (elems : List MElement) (xiPartitions : List (List (List ℚ))) :
    List (List (List ℚ)) :=
  elems.flatMap (fun e => xiPartitions.map (fun part => (elemEvaluate e part).getD []))

/-- All evaluated physical points of a refinement run, in evaluation order. -/
def refinedPts (elems : List MElement) (xiPartitions : List (List (List ℚ))) :
    List (List ℚ) :=
  (refinedChunks elems xiPartitions).flatten

/-- The deduplication contract of a refinement run: the node array `xn`
lists each distinct evaluated point exactly once, ordered by first
occurrence among the evaluated points `refinedPts`; the flattened
connectivity maps each evaluated point to its assigned index (its position
in `xn`); and two evaluated points receive the same index exactly when they
are equal as exact coordinate tuples. -/
def DedupSpec (elems : List MElement) (xiPartitions : List (List (List ℚ)))
    (xn : List (List ℚ)) (xe : List (List Nat)) : Prop :=
  xn.Nodup ∧
  (∀ p, p ∈ xn ↔ p ∈ refinedPts elems xiPartitions) ∧
  (xn.map (fun p => posOf p (refinedPts elems xiPartitions))).Pairwise (· < ·) ∧
  xe.flatten = (refinedPts elems xiPartitions).map (fun p => posOf p xn) ∧
  (∀ p ∈ refinedPts elems xiPartitions, ∀ q ∈ refinedPts elems xiPartitions,
    (posOf p xn = posOf q xn ↔ p = q))

/-- Modelled from the spec: a batch of sub-slice writes into the
Coefficient Store region of a node with the given `offset` and row length
`cols`; the write addressed `(i, j, v)` sets the Store element at flat
position `offset + i * cols + j` to `v` (§4.1; `core.py` is not under
`src/`). -/
def nodeWriteSub (P : List ℚ) (offset cols : Nat)
    (writes : List (Nat × Nat × ℚ)) : List ℚ :=
  writes.foldl (fun Q w => Q.set (offset + w.1 * cols + w.2.1) w.2.2) P

/-- Modelled from the spec: reading a node's values through its Store
region, reshaped as `rows × cols` (§4.1). -/
def nodeRead (P : List ℚ) (offset rows cols : Nat) : List (List ℚ) :=
  (List.range rows).map (fun i =>
    (List.range cols).map (fun j => P.getD (offset + i * cols + j) 0))

/-- Modelled from the spec: assigning a whole value array to a node
(§3, §4.1), with the shape check pinned by
`test_nodevalues.TestNodeValues.test_set_all_different_shape`, which
requires the assignment of a 3×2 array to a 2×3 node to raise even though
the total element counts agree; `none` models the raised error
(ShapeMismatch) and leaves the Store unchanged. -/
def nodeSetValues (P : List ℚ) (offset rows cols : Nat)
    (vals : List (List ℚ)) : Option (List ℚ) :=
  if vals.length = rows ∧ ∀ v ∈ vals, v.length = cols then
    some (nodeWriteSub P offset cols
      ((List.range rows).flatMap (fun i =>
        (List.range cols).map (fun j => (i, j, (vals.getD i []).getD j 0)))))
  else none

/-! ### Lemmas about `posOf` -/

theorem posOf_lt_length {α : Type} [DecidableEq α] {x : α} {l : List α}
    (h : x ∈ l) : posOf x l < l.length := by
  induction l with
  | nil => simp at h
  | cons y ys ih =>
    by_cases hy : y = x
    · simp [posOf, hy]
    · have hx : x ∈ ys := by
        rcases List.mem_cons.mp h with h1 | h1
        · exact absurd h1.symm hy
        · exact h1
      simp only [posOf, if_neg hy, List.length_cons]
      exact Nat.succ_lt_succ (ih hx)

theorem getD_posOf {α : Type} [DecidableEq α] {x : α} {l : List α}
    (h : x ∈ l) (d : α) : l.getD (posOf x l) d = x := by
  induction l with
  | nil => simp at h
  | cons y ys ih =>
    by_cases hy : y = x
    · simp [posOf, hy]
    · have hx : x ∈ ys := by
        rcases List.mem_cons.mp h with h1 | h1
        · exact absurd h1.symm hy
        · exact h1
      simp only [posOf, if_neg hy, List.getD_cons_succ]
      exact ih hx

theorem posOf_append_left {α : Type} [DecidableEq α] {x : α} {l : List α}
    (t : List α) (h : x ∈ l) : posOf x (l ++ t) = posOf x l := by
  induction l with
  | nil => simp at h
  | cons y ys ih =>
    by_cases hy : y = x
    · simp [posOf, hy]
    · have hx : x ∈ ys := by
        rcases List.mem_cons.mp h with h1 | h1
        · exact absurd h1.symm hy
        · exact h1
      simp [posOf, hy, ih hx]

theorem posOf_append_of_not_mem {α : Type} [DecidableEq α] {x : α} {l : List α}
    (t : List α) (h : x ∉ l) : posOf x (l ++ t) = l.length + posOf x t := by
  induction l with
  | nil => simp
  | cons y ys ih =>
    have hy : y ≠ x := fun hyx => h (hyx ▸ List.mem_cons_self y ys)
    have hx : x ∉ ys := fun hmem => h (List.mem_cons_of_mem y hmem)
    rw [List.cons_append]
    simp only [posOf, if_neg hy, List.length_cons]
    rw [ih hx]
    omega

theorem posOf_inj {α : Type} [DecidableEq α] {x y : α} {l : List α}
    (hx : x ∈ l) (hy : y ∈ l) (h : posOf x l = posOf y l) : x = y := by
  have h1 := getD_posOf hx x
  have h2 := getD_posOf hy x
  rw [← h1, ← h2, h]

/-! ### Lemmas about `dedupFold` -/

theorem dedupFold_nil (m : List (List ℚ)) : dedupFold m [] = m := rfl

theorem dedupFold_cons (m : List (List ℚ)) (p : List ℚ) (ps : List (List ℚ)) :
    dedupFold m (p :: ps) = dedupFold (if p ∈ m then m else m ++ [p]) ps := by
  by_cases hp : p ∈ m <;> simp [dedupFold, hp]

theorem dedupFold_append (m : List (List ℚ)) (ps qs : List (List ℚ)) :
    dedupFold m (ps ++ qs) = dedupFold (dedupFold m ps) qs := by
  simp [dedupFold, List.foldl_append]

theorem dedupFold_suffix (m : List (List ℚ)) (ps : List (List ℚ)) :
    ∃ t, dedupFold m ps = m ++ t := by
  induction ps generalizing m with
  | nil => exact ⟨[], by simp [dedupFold]⟩
  | cons p ps ih =>
    rw [dedupFold_cons]
    by_cases hp : p ∈ m
    · simpa [hp] using ih m
    · obtain ⟨t, ht⟩ := ih (m ++ [p])
      exact ⟨p :: t, by simp [hp, ht]⟩

theorem mem_dedupFold (m : List (List ℚ)) (ps : List (List ℚ)) (x : List ℚ) :
    x ∈ dedupFold m ps ↔ x ∈ m ∨ x ∈ ps := by
  induction ps generalizing m with
  | nil => simp [dedupFold]
  | cons p ps ih =>
    rw [dedupFold_cons]
    by_cases hp : p ∈ m
    · rw [if_pos hp, ih]
      constructor
      · rintro (h | h)
        · exact Or.inl h
        · exact Or.inr (List.mem_cons_of_mem p h)
      · rintro (h | h)
        · exact Or.inl h
        · rcases List.mem_cons.mp h with h1 | h1
          · exact Or.inl (h1 ▸ hp)
          · exact Or.inr h1
    · rw [if_neg hp, ih]
      simp only [List.mem_append, List.mem_singleton, List.mem_cons]
      tauto

theorem nodup_dedupFold (m : List (List ℚ)) (ps : List (List ℚ))
    (h : m.Nodup) : (dedupFold m ps).Nodup := by
  induction ps generalizing m with
  | nil => exact h
  | cons p ps ih =>
    rw [dedupFold_cons]
    by_cases hp : p ∈ m
    · rw [if_pos hp]; exact ih m h
    · rw [if_neg hp]
      refine ih (m ++ [p]) ?_
      simp [List.nodup_append, h, hp]

theorem dedupFold_map_posOf (ps : List (List ℚ)) :
    ((dedupFold [] ps).map (fun p => posOf p ps)).Pairwise (· < ·) := by
  induction ps using List.reverseRecOn with
  | nil => simp [dedupFold]
  | append_singleton qs p ih =>
    rw [dedupFold_append]
    have hmem : ∀ x ∈ dedupFold [] qs, x ∈ qs := by
      intro x hx
      rcases (mem_dedupFold [] qs x).mp hx with h | h
      · simp at h
      · exact h
    have hstable : (dedupFold [] qs).map (fun q => posOf q (qs ++ [p])) =
        (dedupFold [] qs).map (fun q => posOf q qs) := by
      refine List.map_congr_left ?_
      intro q hq
      exact posOf_append_left [p] (hmem q hq)
    by_cases hp : p ∈ dedupFold [] qs
    · rw [dedupFold_cons, if_pos hp, dedupFold_nil, hstable]
      exact ih
    · rw [dedupFold_cons, if_neg hp, dedupFold_nil, List.map_append,
        List.pairwise_append]
      refine ⟨hstable ▸ ih, by simp, ?_⟩
      intro a ha b hb
      simp only [List.mem_map] at ha
      obtain ⟨q, hq, rfl⟩ := ha
      have hpq : p ∉ qs := fun hmemp => hp ((mem_dedupFold [] qs p).mpr (Or.inr hmemp))
      have hbval : b = qs.length := by
        simp only [List.map_cons, List.map_nil, List.mem_singleton] at hb
        rw [hb, posOf_append_of_not_mem [p] hpq]
        simp [posOf]
      rw [hbval, posOf_append_left [p] (hmem q hq)]
      exact posOf_lt_length (hmem q hq)

/-! ### The deduplication loop, characterized -/

theorem dedupScan_eq (chunk : List (List ℚ)) (m : List (List ℚ)) (ids : List Nat) :
    chunk.foldl
      (fun st2 node =>
        if node ∈ st2.1 then (st2.1, st2.2 ++ [posOf node st2.1])
        else (st2.1 ++ [node], st2.2 ++ [st2.1.length]))
      (m, ids)
    = (dedupFold m chunk,
       ids ++ chunk.map (fun p => posOf p (dedupFold m chunk))) := by
  induction chunk generalizing m ids with
  | nil => simp [dedupFold]
  | cons p ps ih =>
    rw [List.foldl_cons, dedupFold_cons]
    by_cases hp : p ∈ m
    · rw [if_pos hp]
      simp only
      rw [if_pos hp, ih]
      obtain ⟨t, ht⟩ := dedupFold_suffix m ps
      have hpos : posOf p (dedupFold m ps) = posOf p m := by
        rw [ht, posOf_append_left t hp]
      simp [hpos, List.append_assoc]
    · rw [if_neg hp]
      simp only
      rw [if_neg hp, ih]
      obtain ⟨t, ht⟩ := dedupFold_suffix (m ++ [p]) ps
      have hpos : posOf p (dedupFold (m ++ [p]) ps) = m.length := by
        rw [ht, List.append_assoc, posOf_append_of_not_mem _ hp]
        simp [posOf]
      simp [hpos, List.append_assoc]

theorem dedupChunks_nil (st : List (List ℚ) × List (List Nat)) :
    dedupChunks st [] = st := rfl

theorem dedupChunks_cons (st : List (List ℚ) × List (List Nat))
    (c : List (List ℚ)) (cs : List (List (List ℚ))) :
    dedupChunks st (c :: cs) =
      dedupChunks (dedupFold st.1 c,
        st.2 ++ [c.map (fun p => posOf p (dedupFold st.1 c))]) cs := by
  simp only [dedupChunks, List.foldl_cons]
  rw [dedupScan_eq]
  rfl

theorem dedupChunks_spec (chunks : List (List (List ℚ)))
    (m0 : List (List ℚ)) (xe0 : List (List Nat)) :
    dedupChunks (m0, xe0) chunks =
      (dedupFold m0 chunks.flatten,
       xe0 ++ chunks.map (fun c =>
         c.map (fun p => posOf p (dedupFold m0 chunks.flatten)))) := by
  induction chunks generalizing m0 xe0 with
  | nil => simp [dedupChunks, dedupFold]
  | cons c cs ih =>
    rw [dedupChunks_cons]
    simp only
    rw [ih]
    have hflat : (c :: cs).flatten = c ++ cs.flatten := by simp
    rw [hflat, dedupFold_append]
    obtain ⟨t, ht⟩ := dedupFold_suffix (dedupFold m0 c) cs.flatten
    have hstable : List.map (fun p => posOf p (dedupFold (dedupFold m0 c) cs.flatten)) c
        = List.map (fun p => posOf p (dedupFold m0 c)) c := by
      refine List.map_congr_left ?_
      intro p hp
      have hmem : p ∈ dedupFold m0 c := (mem_dedupFold m0 c p).mpr (Or.inr hp)
      rw [ht, posOf_append_left t hmem]
    simp only [List.map_cons, hstable, List.append_assoc, List.singleton_append]

/-- Under a resolvable element basis, the inner fold of `refineCore` over
one element's partitions computes `dedupChunks` of that element's chunks. -/
theorem refineCore_inner (e : MElement) (parts : List (List (List ℚ)))
    (he : (elemBasisOrders e).isSome)
    (st : List (List ℚ) × List (List Nat)) :
    parts.foldl
      (fun acc2 part =>
        acc2.bind (fun st =>
          (elemEvaluate e part).map (fun pts =>
            let inner := pts.foldl
              (fun st2 node =>
                if node ∈ st2.1 then (st2.1, st2.2 ++ [posOf node st2.1])
                else (st2.1 ++ [node], st2.2 ++ [st2.1.length]))
              (st.1, ([] : List Nat))
            (inner.1, st.2 ++ [inner.2]))))
      (some st)
    = some (dedupChunks st (parts.map (fun part => (elemEvaluate e part).getD []))) := by
  obtain ⟨o, ho⟩ := Option.isSome_iff_exists.mp he
  induction parts generalizing st with
  | nil => simp [dedupChunks]
  | cons part ps ih =>
    have heval : elemEvaluate e part =
        some (part.map (elemEvalPoint o.1 o.2.1 o.2.2 e.nodeVals)) := by
      simp [elemEvaluate, ho]
    rw [List.foldl_cons, List.map_cons, dedupChunks_cons, heval]
    simp only [Option.some_bind, Option.map_some', Option.getD_some]
    conv_lhs => arg 2; rw [dedupScan_eq]
    exact ih _

theorem dedupChunks_append (st : List (List ℚ) × List (List Nat))
    (c1 c2 : List (List (List ℚ))) :
    dedupChunks st (c1 ++ c2) = dedupChunks (dedupChunks st c1) c2 := by
  simp [dedupChunks, List.foldl_append]

theorem refinedChunks_cons (e : MElement) (es : List MElement)
    (parts : List (List (List ℚ))) :
    refinedChunks (e :: es) parts =
      parts.map (fun part => (elemEvaluate e part).getD []) ++ refinedChunks es parts := by
  simp [refinedChunks]

/-- Under resolvable element bases, `refineCore` computes `dedupChunks`
over the evaluated chunks, starting from the given state. -/
theorem refineCore_aux (elems : List MElement) (parts : List (List (List ℚ)))
    (hB : ∀ e ∈ elems, (elemBasisOrders e).isSome)
    (st : List (List ℚ) × List (List Nat)) :
    elems.foldl
      (fun acc e =>
        parts.foldl
          (fun acc2 part =>
            acc2.bind (fun st =>
              (elemEvaluate e part).map (fun pts =>
                let inner := pts.foldl
                  (fun st2 node =>
                    if node ∈ st2.1 then (st2.1, st2.2 ++ [posOf node st2.1])
                    else (st2.1 ++ [node], st2.2 ++ [st2.1.length]))
                  (st.1, ([] : List Nat))
                (inner.1, st.2 ++ [inner.2]))))
          acc)
      (some st)
    = some (dedupChunks st (refinedChunks elems parts)) := by
  induction elems generalizing st with
  | nil => simp [refinedChunks, dedupChunks]
  | cons e es ih =>
    rw [List.foldl_cons,
      refineCore_inner e parts (hB e (List.mem_cons_self e es)) st,
      ih (fun e' he' => hB e' (List.mem_cons_of_mem e he')),
      refinedChunks_cons, dedupChunks_append]

/-- Master characterization of `refineCore`: under resolvable element
bases it succeeds, its node list is the first-seen deduplication of all
evaluated points, and its connectivity chunks map each evaluated point to
its position in that node list. -/
theorem refineCore_spec (elems : List MElement) (parts : List (List (List ℚ)))
    (hB : ∀ e ∈ elems, (elemBasisOrders e).isSome) :
    refineCore elems parts =
      some (dedupFold [] (refinedPts elems parts),
        (refinedChunks elems parts).map (fun c =>
          c.map (fun p => posOf p (dedupFold [] (refinedPts elems parts))))) := by
  rw [show refineCore elems parts = _ from refineCore_aux elems parts hB ([], []),
    dedupChunks_spec]
  simp [refinedPts]

/-- The output of `refineCore_spec` satisfies the deduplication contract. -/
theorem dedupSpec_refineCore (elems : List MElement)
    (parts : List (List (List ℚ))) :
    DedupSpec elems parts (dedupFold [] (refinedPts elems parts))
      ((refinedChunks elems parts).map (fun c =>
        c.map (fun p => posOf p (dedupFold [] (refinedPts elems parts))))) := by
  have hmem : ∀ p, p ∈ dedupFold [] (refinedPts elems parts) ↔
      p ∈ refinedPts elems parts := by
    intro p
    rw [mem_dedupFold]
    simp
  refine ⟨nodup_dedupFold _ _ List.nodup_nil, hmem, dedupFold_map_posOf _, ?_, ?_⟩
  · rw [refinedPts, ← List.map_flatten]
  · intro p hp q hq
    constructor
    · intro h
      exact posOf_inj ((hmem p).mpr hp) ((hmem q).mpr hq) h
    · intro h
      rw [h]

/-! ### Indexing lemmas for uniform flatMaps, `linspace` and the xi grid -/

theorem length_flatMap_uniform {α β : Type} (l : List α) (f : α → List β)
    (L : Nat) (hf : ∀ x ∈ l, (f x).length = L) :
    (l.flatMap f).length = l.length * L := by
  induction l with
  | nil => simp
  | cons x xs ih =>
    rw [List.flatMap_cons, List.length_append, hf x (List.mem_cons_self x xs),
      ih (fun y hy => hf y (List.mem_cons_of_mem x hy)), List.length_cons,
      Nat.succ_mul]
    omega

theorem getD_flatMap_uniform {α β : Type} (l : List α) (f : α → List β)
    (L : Nat) (hf : ∀ x ∈ l, (f x).length = L) (q r : Nat)
    (hq : q < l.length) (hr : r < L) (d : β) (dA : α) :
    (l.flatMap f).getD (q * L + r) d = (f (l.getD q dA)).getD r d := by
  induction l generalizing q with
  | nil => simp at hq
  | cons x xs ih =>
    have hfx : (f x).length = L := hf x (List.mem_cons_self x xs)
    rw [List.flatMap_cons]
    cases q with
    | zero =>
      rw [Nat.zero_mul, Nat.zero_add,
        List.getD_append _ _ _ _ (by rw [hfx]; exact hr)]
      simp
    | succ q' =>
      have harith : (q' + 1) * L + r = L + (q' * L + r) := by ring
      rw [harith, List.getD_append_right _ _ _ _ (by rw [hfx]; omega), hfx,
        Nat.add_sub_cancel_left, List.getD_cons_succ]
      exact ih (fun y hy => hf y (List.mem_cons_of_mem x hy)) q'
        (by simpa using hq)

theorem length_linspace (a b : ℚ) (n : Nat) : (linspace a b n).length = n := by
  rw [linspace, List.length_map, List.length_range]

theorem getD_linspace (n i : Nat) (hi : i < n) (d : ℚ) :
    (linspace 0 1 n).getD i d = (i : ℚ) / ((n : ℚ) - 1) := by
  have hlen : i < (linspace 0 1 n).length := by rwa [length_linspace]
  rw [linspace] at hlen ⊢
  rw [List.getD_eq_getElem _ _ hlen, List.getElem_map, List.getElem_range]
  ring

theorem generate_xi_grid_eq (n1 n2 n3 : Nat) :
    generate_xi_grid [n1, n2, n3] 3 =
      (linspace 0 1 n2).flatMap (fun b =>
        (linspace 0 1 n1).flatMap (fun a =>
          (linspace 0 1 n3).map (fun c => [c, a, b]))) := rfl

theorem generate_xi_grid_inner_length (n1 n3 : Nat) (b : ℚ) :
    ((linspace 0 1 n1).flatMap (fun a =>
      (linspace 0 1 n3).map (fun c => List.cons c [a, b]))).length = n1 * n3 := by
  refine Eq.trans (length_flatMap_uniform _ _ n3 ?_) ?_
  · intro a ha
    rw [List.length_map, length_linspace]
  · rw [length_linspace]

theorem generate_xi_grid_length (n1 n2 n3 : Nat) :
    (generate_xi_grid [n1, n2, n3] 3).length = n2 * (n1 * n3) := by
  rw [generate_xi_grid_eq]
  refine Eq.trans (length_flatMap_uniform _ _ (n1 * n3) ?_) ?_
  · intro b hb
    exact generate_xi_grid_inner_length n1 n3 b
  · rw [length_linspace]

theorem generate_xi_grid_getD (n1 n2 n3 j i k : Nat)
    (hj : j < n2) (hi : i < n1) (hk : k < n3) :
    (generate_xi_grid [n1, n2, n3] 3).getD (j * (n1 * n3) + (i * n3 + k)) [] =
      [(k : ℚ) / ((n3 : ℚ) - 1), (i : ℚ) / ((n1 : ℚ) - 1),
       (j : ℚ) / ((n2 : ℚ) - 1)] := by
  rw [generate_xi_grid_eq]
  rw [getD_flatMap_uniform _ _ (n1 * n3)
      (fun b hb => generate_xi_grid_inner_length n1 n3 b)
      j (i * n3 + k) (by rwa [length_linspace])
      (by
        have h2 : i * n3 + n3 ≤ n1 * n3 := by
          rw [← Nat.succ_mul]
          exact Nat.mul_le_mul_right n3 hi
        omega)
      [] 0]
  rw [getD_flatMap_uniform _ _ n3
      (fun a ha => by rw [List.length_map, length_linspace]) i k
      (by rwa [length_linspace]) hk [] 0]
  have hk3 : k < (linspace 0 1 n3).length := by rwa [length_linspace]
  rw [List.getD_eq_getElem _ _ (by simpa using hk3), List.getElem_map,
    ← List.getD_eq_getElem (linspace 0 1 n3) 0 hk3,
    getD_linspace n3 k hk, getD_linspace n1 i hi, getD_linspace n2 j hj]

/-- Decomposition of a flat index `m < n³` into its base-`n` digits, with
the innermost digit `m % n`, middle digit `m / n % n`, outermost digit
`m / (n * n)`. -/
theorem idx_decomp (n m : Nat) (hm : m < n * (n * n)) :
    m / (n * n) * (n * n) + ((m / n % n) * n + m % n) = m ∧
    m / (n * n) < n ∧ m / n % n < n ∧ m % n < n := by
  have hn : 0 < n := by
    rcases Nat.eq_zero_or_pos n with h | h
    · subst h; simp at hm
    · exact h
  refine ⟨?_, ?_, Nat.mod_lt _ hn, Nat.mod_lt _ hn⟩
  · have h1 : m % n + n * (m / n) = m := Nat.mod_add_div m n
    have h2 : m / n % n + n * (m / n / n) = m / n := Nat.mod_add_div (m / n) n
    have h3 : m / n / n = m / (n * n) := Nat.div_div_eq_div_mul m n n
    calc m / (n * n) * (n * n) + ((m / n % n) * n + m % n)
        = m % n + n * (m / n % n + n * (m / (n * n))) := by ring
      _ = m % n + n * (m / n) := by rw [← h3, h2]
      _ = m := h1
  · exact (Nat.div_lt_iff_lt_mul (Nat.mul_pos hn hn)).mpr hm

theorem div_cancel_nat_eq (c : ℚ) (hc : c ≠ 0) (a b : Nat)
    (h : (a : ℚ) / c = (b : ℚ) / c) : a = b := by
  have h2 := (div_eq_div_iff hc hc).mp h
  have h3 : (a : ℚ) = (b : ℚ) := mul_right_cancel₀ hc h2
  exact_mod_cast h3

theorem generate_xi_grid_nodup (n : Nat) (hn : 2 ≤ n) :
    (generate_xi_grid [n, n, n] 3).Nodup := by
  have hlen : (generate_xi_grid [n, n, n] 3).length = n * (n * n) :=
    generate_xi_grid_length n n n
  have hone : ((n : ℚ) - 1) ≠ 0 := by
    have h2 : (2 : ℚ) ≤ (n : ℚ) := by exact_mod_cast hn
    intro h0
    have : (n : ℚ) = 1 := by linarith
    linarith
  rw [List.nodup_iff_injective_get]
  rintro ⟨m, hm⟩ ⟨m', hm'⟩ h
  rw [List.get_eq_getElem, List.get_eq_getElem] at h
  obtain ⟨hdec, hj, hi, hk⟩ := idx_decomp n m (hlen ▸ hm)
  obtain ⟨hdec', hj', hi', hk'⟩ := idx_decomp n m' (hlen ▸ hm')
  have g1 : (generate_xi_grid [n, n, n] 3)[m] =
      [((m % n : Nat) : ℚ) / ((n : ℚ) - 1), ((m / n % n : Nat) : ℚ) / ((n : ℚ) - 1),
       ((m / (n * n) : Nat) : ℚ) / ((n : ℚ) - 1)] := by
    rw [← List.getD_eq_getElem _ [] hm]
    conv_lhs => rw [← hdec]
    exact generate_xi_grid_getD n n n _ _ _ hj hi hk
  have g2 : (generate_xi_grid [n, n, n] 3)[m'] =
      [((m' % n : Nat) : ℚ) / ((n : ℚ) - 1), ((m' / n % n : Nat) : ℚ) / ((n : ℚ) - 1),
       ((m' / (n * n) : Nat) : ℚ) / ((n : ℚ) - 1)] := by
    rw [← List.getD_eq_getElem _ [] hm']
    conv_lhs => rw [← hdec']
    exact generate_xi_grid_getD n n n _ _ _ hj' hi' hk'
  rw [g1, g2] at h
  simp only [List.cons.injEq, and_true] at h
  obtain ⟨h1, h2, h3⟩ := h
  have hk0 : m % n = m' % n := div_cancel_nat_eq _ hone _ _ h1
  have hi0 : m / n % n = m' / n % n := div_cancel_nat_eq _ hone _ _ h2
  have hj0 : m / (n * n) = m' / (n * n) := div_cancel_nat_eq _ hone _ _ h3
  have : m = m' := by rw [← hdec, ← hdec', hk0, hi0, hj0]
  exact Fin.ext this

/-! ### Partition lemmas -/

theorem length_elem_partitions (fac : Nat) :
    (elem_partitions fac).length = fac := by
  rw [elem_partitions, List.length_map, List.length_range]

theorem getD_elem_partitions (fac n : Nat) (hn : n < fac) (d : ℚ × ℚ) :
    (elem_partitions fac).getD n d =
      ((n : ℚ) / (fac : ℚ), ((n : ℚ) + 1) / (fac : ℚ)) := by
  have h1 : n < (elem_partitions fac).length := by rwa [length_elem_partitions]
  rw [elem_partitions] at h1 ⊢
  rw [List.getD_eq_getElem _ _ h1, List.getElem_map, List.getElem_range]

theorem length_xi_partitions_xi1 (grid : List (List ℚ)) (fac : Nat) :
    (xi_partitions_xi1 grid fac).length = fac := by
  rw [xi_partitions_xi1, List.length_map, length_elem_partitions]

theorem length_xi_partitions_xi2 (grid : List (List ℚ)) (fac : Nat) :
    (xi_partitions_xi2 grid fac).length = fac := by
  rw [xi_partitions_xi2, List.length_map, length_elem_partitions]

theorem length_xi_partitions_xi3 (grid : List (List ℚ)) (fac : Nat) :
    (xi_partitions_xi3 grid fac).length = fac := by
  rw [xi_partitions_xi3, List.length_map, length_elem_partitions]

theorem getD_xi_partitions_xi1 (grid : List (List ℚ)) (fac n : Nat)
    (hn : n < fac) :
    (xi_partitions_xi1 grid fac).getD n [] =
      grid.map (fun row =>
        [row.getD 0 0 * (((n : ℚ) + 1) / (fac : ℚ) - (n : ℚ) / (fac : ℚ)) +
          (n : ℚ) / (fac : ℚ), row.getD 1 0, row.getD 2 0]) := by
  have h1 : n < (elem_partitions fac).length := by rwa [length_elem_partitions]
  rw [xi_partitions_xi1,
    List.getD_eq_getElem _ _ (by rwa [List.length_map, length_elem_partitions]),
    List.getElem_map, ← List.getD_eq_getElem _ ((0 : ℚ), (0 : ℚ)) h1,
    getD_elem_partitions fac n hn]

theorem getD_xi_partitions_xi2 (grid : List (List ℚ)) (fac n : Nat)
    (hn : n < fac) :
    (xi_partitions_xi2 grid fac).getD n [] =
      grid.map (fun row =>
        [row.getD 0 0,
         row.getD 1 0 * (((n : ℚ) + 1) / (fac : ℚ) - (n : ℚ) / (fac : ℚ)) +
          (n : ℚ) / (fac : ℚ), row.getD 2 0]) := by
  have h1 : n < (elem_partitions fac).length := by rwa [length_elem_partitions]
  rw [xi_partitions_xi2,
    List.getD_eq_getElem _ _ (by rwa [List.length_map, length_elem_partitions]),
    List.getElem_map, ← List.getD_eq_getElem _ ((0 : ℚ), (0 : ℚ)) h1,
    getD_elem_partitions fac n hn]

theorem getD_xi_partitions_xi3 (grid : List (List ℚ)) (fac n : Nat)
    (hn : n < fac) :
    (xi_partitions_xi3 grid fac).getD n [] =
      grid.map (fun row =>
        [row.getD 0 0, row.getD 1 0,
         row.getD 2 0 * (((n : ℚ) + 1) / (fac : ℚ) - (n : ℚ) / (fac : ℚ)) +
          (n : ℚ) / (fac : ℚ)]) := by
  have h1 : n < (elem_partitions fac).length := by rwa [length_elem_partitions]
  rw [xi_partitions_xi3,
    List.getD_eq_getElem _ _ (by rwa [List.length_map, length_elem_partitions]),
    List.getElem_map, ← List.getD_eq_getElem _ ((0 : ℚ), (0 : ℚ)) h1,
    getD_elem_partitions fac n hn]

theorem xi_partitions_full_eq (grid : List (List ℚ)) (f1 f2 f3 : Nat) :
    xi_partitions_full grid [f1, f2, f3] =
      (elem_partitions f1).flatMap (fun b1 =>
        (elem_partitions f2).flatMap (fun b2 =>
          (elem_partitions f3).map (fun b3 =>
            grid.map (fun row =>
              [row.getD 0 0 * (b1.2 - b1.1) + b1.1,
               row.getD 1 0 * (b2.2 - b2.1) + b2.1,
               row.getD 2 0 * (b3.2 - b3.1) + b3.1])))) := rfl

theorem length_xi_partitions_full (grid : List (List ℚ)) (f1 f2 f3 : Nat) :
    (xi_partitions_full grid [f1, f2, f3]).length = f1 * (f2 * f3) := by
  rw [xi_partitions_full_eq]
  refine Eq.trans (length_flatMap_uniform _ _ (f2 * f3) ?_) ?_
  · intro b1 hb1
    refine Eq.trans (length_flatMap_uniform _ _ f3 ?_) ?_
    · intro b2 hb2
      rw [List.length_map, length_elem_partitions]
    · rw [length_elem_partitions]
  · rw [length_elem_partitions]

theorem getD_xi_partitions_full (grid : List (List ℚ)) (f1 f2 f3 a b c : Nat)
    (ha : a < f1) (hb : b < f2) (hc : c < f3) :
    (xi_partitions_full grid [f1, f2, f3]).getD (a * (f2 * f3) + (b * f3 + c)) [] =
      grid.map (fun row =>
        [row.getD 0 0 * (((a : ℚ) + 1) / (f1 : ℚ) - (a : ℚ) / (f1 : ℚ)) +
          (a : ℚ) / (f1 : ℚ),
         row.getD 1 0 * (((b : ℚ) + 1) / (f2 : ℚ) - (b : ℚ) / (f2 : ℚ)) +
          (b : ℚ) / (f2 : ℚ),
         row.getD 2 0 * (((c : ℚ) + 1) / (f3 : ℚ) - (c : ℚ) / (f3 : ℚ)) +
          (c : ℚ) / (f3 : ℚ)]) := by
  rw [xi_partitions_full_eq]
  rw [getD_flatMap_uniform _ _ (f2 * f3)
      (fun b1 hb1 => by
        refine Eq.trans (length_flatMap_uniform _ _ f3
          (fun b2 hb2 => by rw [List.length_map, length_elem_partitions]) ) ?_
        rw [length_elem_partitions])
      a (b * f3 + c) (by rwa [length_elem_partitions])
      (by
        have h2 : b * f3 + f3 ≤ f2 * f3 := by
          rw [← Nat.succ_mul]
          exact Nat.mul_le_mul_right f3 hb
        omega)
      [] ((0 : ℚ), (0 : ℚ))]
  rw [getD_flatMap_uniform _ _ f3
      (fun b2 hb2 => by rw [List.length_map, length_elem_partitions]) b c
      (by rwa [length_elem_partitions]) hc [] ((0 : ℚ), (0 : ℚ))]
  have hc3 : c < (elem_partitions f3).length := by rwa [length_elem_partitions]
  rw [List.getD_eq_getElem _ _ (by rwa [List.length_map, length_elem_partitions]),
    List.getElem_map, ← List.getD_eq_getElem _ ((0 : ℚ), (0 : ℚ)) hc3,
    getD_elem_partitions f3 c hc, getD_elem_partitions f1 a ha,
    getD_elem_partitions f2 b hb]

/-! ### Lagrange interpolation at the canonical grid nodes -/

theorem lagrange_delta_one : ∀ a : Nat, a < 2 → ∀ k : Nat, k < 2 →
    lagrangeWeight 1 a ((k : ℚ) / ((1 : Nat) : ℚ)) = if a = k then 1 else 0 := by
  intro a ha k hk
  interval_cases a <;> interval_cases k <;>
    norm_num [lagrangeWeight, List.range_succ]

theorem lagrange_delta_two : ∀ a : Nat, a < 3 → ∀ k : Nat, k < 3 →
    lagrangeWeight 2 a ((k : ℚ) / ((2 : Nat) : ℚ)) = if a = k then 1 else 0 := by
  intro a ha k hk
  interval_cases a <;> interval_cases k <;>
    norm_num [lagrangeWeight, List.range_succ]

theorem lagrange_delta_three : ∀ a : Nat, a < 4 → ∀ k : Nat, k < 4 →
    lagrangeWeight 3 a ((k : ℚ) / ((3 : Nat) : ℚ)) = if a = k then 1 else 0 := by
  intro a ha k hk
  interval_cases a <;> interval_cases k <;>
    norm_num [lagrangeWeight, List.range_succ]

theorem lagrangeWeight_delta (o a k : Nat) (ho : o = 1 ∨ o = 2 ∨ o = 3)
    (ha : a < o + 1) (hk : k < o + 1) :
    lagrangeWeight o a ((k : ℚ) / (o : ℚ)) = if a = k then 1 else 0 := by
  rcases ho with h | h | h <;> subst h
  · exact lagrange_delta_one a ha k hk
  · exact lagrange_delta_two a ha k hk
  · exact lagrange_delta_three a ha k hk

/-- The base-`n` digits of the composed index `j * n² + (i * n + k)`. -/
theorem idx_digits (n j i k : Nat) (hj : j < n) (hi : i < n) (hk : k < n) :
    (j * (n * n) + (i * n + k)) % n = k ∧
    (j * (n * n) + (i * n + k)) / n % n = i ∧
    (j * (n * n) + (i * n + k)) / (n * n) = j := by
  have hn : 0 < n := by omega
  have hrw : j * (n * n) + (i * n + k) = k + (i + j * n) * n := by ring
  refine ⟨?_, ?_, ?_⟩
  · rw [hrw, Nat.add_mul_mod_self_right, Nat.mod_eq_of_lt hk]
  · rw [hrw, Nat.add_mul_div_right _ _ hn, Nat.div_eq_of_lt hk, Nat.zero_add,
      Nat.add_mul_mod_self_right, Nat.mod_eq_of_lt hi]
  · have hlt : k + i * n < n * n := by
      have h2 : i * n + n ≤ n * n := by
        rw [← Nat.succ_mul]
        exact Nat.mul_le_mul_right n hi
      omega
    rw [show j * (n * n) + (i * n + k) = (k + i * n) + j * (n * n) by ring,
      Nat.add_mul_div_right _ _ (Nat.mul_pos hn hn), Nat.div_eq_of_lt hlt,
      Nat.zero_add]

theorem tensorWeight_delta (o n : Nat) (ho : o = 1 ∨ o = 2 ∨ o = 3)
    (hn : n = o + 1) (j i k : Nat) (hj : j < n) (hi : i < n) (hk : k < n)
    (m' : Nat) (hm' : m' < n * (n * n)) :
    tensorWeight o o o m'
      [(k : ℚ) / (o : ℚ), (i : ℚ) / (o : ℚ), (j : ℚ) / (o : ℚ)]
    = if m' = j * (n * n) + (i * n + k) then 1 else 0 := by
  subst hn
  obtain ⟨hdec', hj', hi', hk'⟩ := idx_decomp (o + 1) m' hm'
  rw [tensorWeight]
  simp only [List.getD_cons_zero, List.getD_cons_succ]
  rw [lagrangeWeight_delta o (m' % (o + 1)) k ho hk' hk,
    lagrangeWeight_delta o (m' / (o + 1) % (o + 1)) i ho hi' hi,
    lagrangeWeight_delta o (m' / ((o + 1) * (o + 1))) j ho hj' hj]
  by_cases hall : m' = j * ((o + 1) * (o + 1)) + (i * (o + 1) + k)
  · rw [if_pos hall]
    obtain ⟨d1, d2, d3⟩ := idx_digits (o + 1) j i k hj hi hk
    rw [hall, d1, d2, d3, if_pos rfl, if_pos rfl, if_pos rfl]
    norm_num
  · rw [if_neg hall]
    by_cases h1 : m' % (o + 1) = k
    · by_cases h2 : m' / (o + 1) % (o + 1) = i
      · by_cases h3 : m' / ((o + 1) * (o + 1)) = j
        · exact absurd (by rw [← h1, ← h2, ← h3]; exact hdec'.symm) hall
        · rw [if_neg h3]
          simp
      · rw [if_neg h2]
        simp
    · rw [if_neg h1]
      simp

/-! ### Vector lemmas for the weighted sum -/

theorem vecAdd_smul_zero (x v : List ℚ) (h : v.length = x.length) :
    vecAdd x (vecSmul 0 v) = x := by
  induction x generalizing v with
  | nil => rfl
  | cons a xs ih =>
    cases v with
    | nil => simp at h
    | cons b vs =>
      show (a + 0 * b) :: vecAdd xs (vecSmul 0 vs) = a :: xs
      rw [ih vs (by simpa using h), show a + 0 * b = a by ring]

theorem vecAdd_replicate_zero (v : List ℚ) (d : Nat) (h : v.length = d) :
    vecAdd (List.replicate d 0) (vecSmul 1 v) = v := by
  induction v generalizing d with
  | nil =>
    have hd : d = 0 := by simpa using h.symm
    subst hd
    rfl
  | cons b vs ih =>
    cases d with
    | zero => simp at h
    | succ d' =>
      rw [List.replicate_succ]
      show (0 + 1 * b) :: vecAdd (List.replicate d' 0) (vecSmul 1 vs) = b :: vs
      rw [ih d' (by simpa using h), show (0 : ℚ) + 1 * b = b by ring]

theorem foldl_veczero (w : Nat → ℚ) (vals : List (List ℚ)) (d : Nat)
    (hd : ∀ v ∈ vals, v.length = d) (N : Nat) (hN : N ≤ vals.length)
    (hw : ∀ i, i < N → w i = 0) (acc : List ℚ) (hacc : acc.length = d) :
    (List.range N).foldl
      (fun acc i => vecAdd acc (vecSmul (w i) (vals.getD i []))) acc = acc := by
  induction N with
  | zero => simp
  | succ N' ih =>
    rw [List.range_succ, List.foldl_append,
      ih (by omega) (fun i hi => hw i (by omega)), List.foldl_cons,
      List.foldl_nil, hw N' (by omega)]
    have hmem : vals.getD N' [] ∈ vals := by
      rw [List.getD_eq_getElem _ _ (by omega)]
      exact List.getElem_mem _
    exact vecAdd_smul_zero acc _ (by rw [hd _ hmem, hacc])

theorem foldl_delta (w : Nat → ℚ) (vals : List (List ℚ)) (d : Nat)
    (hd : ∀ v ∈ vals, v.length = d) (N : Nat) (hN : N ≤ vals.length)
    (m : Nat) (hm : m < N)
    (hw : ∀ i, i < N → w i = if i = m then 1 else 0) :
    (List.range N).foldl
      (fun acc i => vecAdd acc (vecSmul (w i) (vals.getD i [])))
      (List.replicate d 0) = vals.getD m [] := by
  have hmmem : vals.getD m [] ∈ vals := by
    rw [List.getD_eq_getElem _ _ (by omega)]
    exact List.getElem_mem _
  induction N with
  | zero => omega
  | succ N' ih =>
    rw [List.range_succ, List.foldl_append]
    by_cases hcase : m = N'
    · subst hcase
      rw [foldl_veczero w vals d hd m (by omega)
          (fun i hi => by rw [hw i (by omega), if_neg (by omega)]) _
          (by simp),
        List.foldl_cons, List.foldl_nil, hw m (by omega), if_pos rfl]
      exact vecAdd_replicate_zero _ d (hd _ hmmem)
    · have hm' : m < N' := by omega
      rw [ih (by omega) hm' (fun i hi => hw i (by omega)),
        List.foldl_cons, List.foldl_nil, hw N' (by omega),
        if_neg (fun h => hcase h.symm)]
      have hmem' : vals.getD N' [] ∈ vals := by
        rw [List.getD_eq_getElem _ _ (by omega)]
        exact List.getElem_mem _
      exact vecAdd_smul_zero _ _ (by rw [hd _ hmem', hd _ hmmem])

/-- Evaluating the modelled basis at the canonical grid node with digits
`(k, i, j)` reproduces the node value at the corresponding flat index. -/
theorem elemEvalPoint_grid (o n : Nat) (ho : o = 1 ∨ o = 2 ∨ o = 3)
    (hn : n = o + 1) (vals : List (List ℚ)) (hlen : vals.length = n * (n * n))
    (d : Nat) (hd : ∀ v ∈ vals, v.length = d) (j i k : Nat)
    (hj : j < n) (hi : i < n) (hk : k < n) :
    elemEvalPoint o o o vals
      [(k : ℚ) / (o : ℚ), (i : ℚ) / (o : ℚ), (j : ℚ) / (o : ℚ)]
    = vals.getD (j * (n * n) + (i * n + k)) [] := by
  have hm : j * (n * n) + (i * n + k) < n * (n * n) := by
    have h1 : i * n + n ≤ n * n := by
      rw [← Nat.succ_mul]
      exact Nat.mul_le_mul_right n hi
    have h2 : j * (n * n) + (n * n) ≤ n * (n * n) := by
      rw [← Nat.succ_mul]
      exact Nat.mul_le_mul_right (n * n) hj
    omega
  have hpos : 0 < n * (n * n) := by
    subst hn
    positivity
  have hne : vals ≠ [] := by
    intro h0
    rw [h0] at hlen
    simp at hlen
    omega
  have hhead : (vals.headD []).length = d := by
    cases vals with
    | nil => exact absurd rfl hne
    | cons v vs => exact hd v (List.mem_cons_self v vs)
  rw [elemEvalPoint,
    show (o + 1) * (o + 1) * (o + 1) = n * (n * n) by subst hn; ring, hhead]
  exact foldl_delta
    (fun m' => tensorWeight o o o m'
      [(k : ℚ) / (o : ℚ), (i : ℚ) / (o : ℚ), (j : ℚ) / (o : ℚ)])
    vals d hd (n * (n * n)) (le_of_eq hlen.symm)
    (j * (n * n) + (i * n + k)) hm
    (fun m' hm' => tensorWeight_delta o n ho hn j i k hj hi hk m' hm')

/-- Modelled `Element.evaluate` at the full canonical grid of its own basis
reproduces the element's node values exactly (the Lagrange interpolation
property). -/
theorem elemEvaluate_grid_self (e : MElement) (o n : Nat)
    (ho : o = 1 ∨ o = 2 ∨ o = 3) (hn : n = o + 1)
    (hbo : elemBasisOrders e = some (o, o, o))
    (hlen : e.nodeVals.length = n * (n * n))
    (d : Nat) (hd : ∀ v ∈ e.nodeVals, v.length = d) :
    elemEvaluate e (generate_xi_grid [n, n, n] 3) = some e.nodeVals := by
  rw [elemEvaluate, hbo, Option.map_some']
  congr 1
  refine List.ext_getElem ?_ ?_
  · rw [List.length_map, generate_xi_grid_length, hlen]
  · intro m h1 h2
    have h1' : m < (generate_xi_grid [n, n, n] 3).length := by
      rwa [List.length_map] at h1
    have hm : m < n * (n * n) := by rwa [hlen] at h2
    obtain ⟨hdec, hj, hi, hk⟩ := idx_decomp n m hm
    have hcast : ((n : ℚ) - 1) = (o : ℚ) := by
      subst hn
      push_cast
      ring
    rw [List.getElem_map, ← List.getD_eq_getElem _ [] h1']
    conv_lhs => rw [← hdec]
    rw [generate_xi_grid_getD n n n _ _ _ hj hi hk, hcast,
      elemEvalPoint_grid o n ho hn e.nodeVals hlen d hd _ _ _ hj hi hk, hdec,
      List.getD_eq_getElem _ _ h2]

/-! ### The trivial partition and deduplication of distinct points -/

theorem mem_generate_xi_grid (n1 n2 n3 : Nat) (row : List ℚ)
    (h : row ∈ generate_xi_grid [n1, n2, n3] 3) : ∃ c a b, row = [c, a, b] := by
  rw [generate_xi_grid_eq] at h
  simp only [List.mem_flatMap, List.mem_map] at h
  obtain ⟨b, -, a, -, c, -, rfl⟩ := h
  exact ⟨c, a, b, rfl⟩

theorem xi_partitions_full_one (grid : List (List ℚ))
    (hrow : ∀ row ∈ grid, ∃ c a b, row = [c, a, b]) :
    xi_partitions_full grid [1, 1, 1] = [grid] := by
  have hep : elem_partitions 1 = [(0, 1)] := by
    rw [elem_partitions, show List.range 1 = [0] from rfl, List.map_cons,
      List.map_nil]
    norm_num
  rw [xi_partitions_full_eq, hep]
  simp only [List.flatMap_cons, List.flatMap_nil, List.map_cons, List.map_nil,
    List.append_nil]
  congr 1
  refine Eq.trans (List.map_congr_left ?_) (List.map_id grid)
  intro row hr
  obtain ⟨c, a, b, rfl⟩ := hrow row hr
  show [c * (1 - 0) + 0, a * (1 - 0) + 0, b * (1 - 0) + 0] = [c, a, b]
  norm_num

theorem dedupFold_of_nodup (m l : List (List ℚ)) (hl : l.Nodup)
    (hml : ∀ x ∈ l, x ∉ m) : dedupFold m l = m ++ l := by
  induction l generalizing m with
  | nil => simp [dedupFold]
  | cons p ps ih =>
    obtain ⟨hp, hps⟩ := List.nodup_cons.mp hl
    rw [dedupFold_cons, if_neg (hml p (List.mem_cons_self p ps)),
      ih (m ++ [p]) hps ?_]
    · simp
    · intro x hx
      simp only [List.mem_append, List.mem_singleton]
      rintro (hxm | hxp)
      · exact hml x (List.mem_cons_of_mem p hx) hxm
      · exact hp (hxp ▸ hx)

/-! ### Coefficient Store lemmas -/

theorem getD_set_ne (P : List ℚ) (t p : Nat) (v : ℚ) (h : p ≠ t) :
    (P.set t v).getD p 0 = P.getD p 0 := by
  rw [List.getD_eq_getElem?_getD, List.getD_eq_getElem?_getD,
    List.getElem?_set_ne (fun ht => h ht.symm)]

theorem getD_set_self (P : List ℚ) (t : Nat) (v : ℚ) (ht : t < P.length) :
    (P.set t v).getD t 0 = v := by
  rw [List.getD_eq_getElem _ _ (by rwa [List.length_set]),
    List.getElem_set_self]

theorem length_nodeWriteSub (P : List ℚ) (offset cols : Nat)
    (writes : List (Nat × Nat × ℚ)) :
    (nodeWriteSub P offset cols writes).length = P.length := by
  induction writes generalizing P with
  | nil => rfl
  | cons w ws ih =>
    rw [nodeWriteSub, List.foldl_cons,
      show ws.foldl (fun Q w => Q.set (offset + w.1 * cols + w.2.1) w.2.2)
          (P.set (offset + w.1 * cols + w.2.1) w.2.2)
        = nodeWriteSub (P.set (offset + w.1 * cols + w.2.1) w.2.2) offset cols ws
        from rfl,
      ih, List.length_set]

theorem nodeWriteSub_cons (P : List ℚ) (offset cols : Nat)
    (w : Nat × Nat × ℚ) (ws : List (Nat × Nat × ℚ)) :
    nodeWriteSub P offset cols (w :: ws) =
      nodeWriteSub (P.set (offset + w.1 * cols + w.2.1) w.2.2) offset cols ws :=
  rfl

/-- Locality of a batch of sub-slice writes: a Store position addressed by
no write keeps its value. -/
theorem nodeWriteSub_getD_of_ne (P : List ℚ) (offset cols : Nat)
    (writes : List (Nat × Nat × ℚ)) (p : Nat)
    (hp : ∀ w ∈ writes, p ≠ offset + w.1 * cols + w.2.1) :
    (nodeWriteSub P offset cols writes).getD p 0 = P.getD p 0 := by
  induction writes generalizing P with
  | nil => rfl
  | cons w ws ih =>
    rw [nodeWriteSub_cons,
      ih _ (fun w' hw' => hp w' (List.mem_cons_of_mem w hw')),
      getD_set_ne _ _ _ _ (hp w (List.mem_cons_self w ws))]

/-- Visibility of a batch of sub-slice writes with pairwise-distinct
in-bounds targets: each written Store position holds its written value. -/
theorem nodeWriteSub_getD_mem (P : List ℚ) (offset cols : Nat)
    (writes : List (Nat × Nat × ℚ))
    (hb : ∀ w ∈ writes, offset + w.1 * cols + w.2.1 < P.length)
    (hnd : (writes.map (fun w => offset + w.1 * cols + w.2.1)).Nodup) :
    ∀ w ∈ writes,
      (nodeWriteSub P offset cols writes).getD (offset + w.1 * cols + w.2.1) 0
        = w.2.2 := by
  induction writes generalizing P with
  | nil => intro w hw; simp at hw
  | cons w0 ws ih =>
    rw [List.map_cons, List.nodup_cons] at hnd
    intro w hw
    rcases List.mem_cons.mp hw with hweq | hwmem
    · subst hweq
      rw [nodeWriteSub_cons]
      have hloc : ∀ w' ∈ ws,
          (offset + w.1 * cols + w.2.1) ≠ offset + w'.1 * cols + w'.2.1 := by
        intro w' hw' heq
        exact hnd.1 (by rw [heq]; exact List.mem_map_of_mem _ hw')
      rw [nodeWriteSub_getD_of_ne _ offset cols ws _ hloc,
        getD_set_self _ _ _ (hb w (List.mem_cons_self w ws))]
    · rw [nodeWriteSub_cons]
      refine ih _ ?_ hnd.2 w hwmem
      intro w' hw'
      rw [List.length_set]
      exact hb w' (List.mem_cons_of_mem w0 hw')

/-! ### Named refinement outputs and per-function unfolding -/

/-- The deduplicated node-coordinate list of a refinement run. -/
def refinedNodes (elems : List MElement) (parts : List (List (List ℚ))) :
    List (List ℚ) :=
  dedupFold [] (refinedPts elems parts)

/-- The connectivity chunks of a refinement run (one per
(element × partition) pair), as indices into `refinedNodes`. -/
def refinedConn (elems : List MElement) (parts : List (List (List ℚ))) :
    List (List Nat) :=
  (refinedChunks elems parts).map (fun c =>
    c.map (fun p => posOf p (refinedNodes elems parts)))

theorem dedupSpec_refined (elems : List MElement)
    (parts : List (List (List ℚ))) :
    DedupSpec elems parts (refinedNodes elems parts) (refinedConn elems parts) :=
  dedupSpec_refineCore elems parts

theorem length_refinedConn (elems : List MElement)
    (parts : List (List (List ℚ))) :
    (refinedConn elems parts).length = elems.length * parts.length := by
  rw [refinedConn, List.length_map, refinedChunks,
    length_flatMap_uniform _ _ parts.length (fun e he => List.length_map _ _)]

theorem refine_xi1_eq (elems : List MElement) (basis : List String)
    (nen : List Nat) (fac : Nat) (hb : get_num_elem_nodes basis = some nen)
    (hB : ∀ e ∈ elems, (elemBasisOrders e).isSome) :
    mesh_refine_along_xi1 elems basis fac =
      some (create_morphic_mesh basis
          (refinedNodes elems (xi_partitions_xi1 (generate_xi_grid nen 3) fac))
          (refinedConn elems (xi_partitions_xi1 (generate_xi_grid nen 3) fac)),
        refinedNodes elems (xi_partitions_xi1 (generate_xi_grid nen 3) fac),
        refinedConn elems (xi_partitions_xi1 (generate_xi_grid nen 3) fac)) := by
  rw [mesh_refine_along_xi1, hb, Option.some_bind]
  show (refineCore elems (xi_partitions_xi1 (generate_xi_grid nen 3) fac)).map _ = _
  rw [refineCore_spec _ _ hB, Option.map_some']
  rfl

theorem refine_xi2_eq (elems : List MElement) (basis : List String)
    (nen : List Nat) (fac : Nat) (hb : get_num_elem_nodes basis = some nen)
    (hB : ∀ e ∈ elems, (elemBasisOrders e).isSome) :
    mesh_refine_along_xi2 elems basis fac =
      some (create_morphic_mesh basis
          (refinedNodes elems (xi_partitions_xi2 (generate_xi_grid nen 3) fac))
          (refinedConn elems (xi_partitions_xi2 (generate_xi_grid nen 3) fac)),
        refinedNodes elems (xi_partitions_xi2 (generate_xi_grid nen 3) fac),
        refinedConn elems (xi_partitions_xi2 (generate_xi_grid nen 3) fac)) := by
  rw [mesh_refine_along_xi2, hb, Option.some_bind]
  show (refineCore elems (xi_partitions_xi2 (generate_xi_grid nen 3) fac)).map _ = _
  rw [refineCore_spec _ _ hB, Option.map_some']
  rfl

theorem refine_xi3_eq (elems : List MElement) (basis : List String)
    (nen : List Nat) (fac : Nat) (hb : get_num_elem_nodes basis = some nen)
    (hB : ∀ e ∈ elems, (elemBasisOrders e).isSome) :
    mesh_refine_along_xi3 elems basis fac =
      some (create_morphic_mesh basis
          (refinedNodes elems (xi_partitions_xi3 (generate_xi_grid nen 3) fac))
          (refinedConn elems (xi_partitions_xi3 (generate_xi_grid nen 3) fac)),
        refinedNodes elems (xi_partitions_xi3 (generate_xi_grid nen 3) fac),
        refinedConn elems (xi_partitions_xi3 (generate_xi_grid nen 3) fac)) := by
  rw [mesh_refine_along_xi3, hb, Option.some_bind]
  show (refineCore elems (xi_partitions_xi3 (generate_xi_grid nen 3) fac)).map _ = _
  rw [refineCore_spec _ _ hB, Option.map_some']
  rfl

theorem refine_full_eq (elems : List MElement) (basis : List String)
    (nen : List Nat) (facs : List Nat) (hb : get_num_elem_nodes basis = some nen)
    (hB : ∀ e ∈ elems, (elemBasisOrders e).isSome) :
    full_refinement elems basis facs =
      some (create_morphic_mesh basis
          (refinedNodes elems (xi_partitions_full (generate_xi_grid nen 3) facs))
          (refinedConn elems (xi_partitions_full (generate_xi_grid nen 3) facs)),
        refinedNodes elems (xi_partitions_full (generate_xi_grid nen 3) facs),
        refinedConn elems (xi_partitions_full (generate_xi_grid nen 3) facs)) := by
  rw [full_refinement, hb, Option.some_bind]
  show (refineCore elems (xi_partitions_full (generate_xi_grid nen 3) facs)).map _ = _
  rw [refineCore_spec _ _ hB, Option.map_some']
  rfl

theorem create_mesh_node_ids (basis : List String) (xn : List (List ℚ))
    (xe : List (List Nat)) :
    (create_morphic_mesh basis xn xe).nodes.map Prod.fst =
      (List.range xn.length).map (fun i => i + 1) := by
  rw [create_morphic_mesh, List.map_map]
  rfl

/-! ### Claim theorems -/

/-- C9: `get_num_elem_nodes` returns `[2,2,2]`, `[3,3,3]`, `[4,4,4]` for the
three uniform Lagrange basis lists and raises (returns `none`) for every
other basis list, mixed per-axis bases included; consequently all four
refinement functions reject such a basis before evaluating anything. -/
theorem c9_basis_dispatch :
    get_num_elem_nodes ["L1", "L1", "L1"] = some [2, 2, 2] ∧
    get_num_elem_nodes ["L2", "L2", "L2"] = some [3, 3, 3] ∧
    get_num_elem_nodes ["L3", "L3", "L3"] = some [4, 4, 4] ∧
    (∀ basis : List String,
      basis ≠ ["L1", "L1", "L1"] → basis ≠ ["L2", "L2", "L2"] →
      basis ≠ ["L3", "L3", "L3"] →
      get_num_elem_nodes basis = none ∧
      ∀ (elems : List MElement) (fac : Nat) (facs : List Nat),
        mesh_refine_along_xi1 elems basis fac = none ∧
        mesh_refine_along_xi2 elems basis fac = none ∧
        mesh_refine_along_xi3 elems basis fac = none ∧
        full_refinement elems basis facs = none) := by
  refine ⟨by decide, by decide, by decide, ?_⟩
  intro basis h1 h2 h3
  have hnone : get_num_elem_nodes basis = none := by
    rw [get_num_elem_nodes, if_neg h1, if_neg h2, if_neg h3]
  refine ⟨hnone, ?_⟩
  intro elems fac facs
  refine ⟨?_, ?_, ?_, ?_⟩
  · rw [mesh_refine_along_xi1, hnone]; rfl
  · rw [mesh_refine_along_xi2, hnone]; rfl
  · rw [mesh_refine_along_xi3, hnone]; rfl
  · rw [full_refinement, hnone]; rfl

/-- Witness for C9 at the mixed basis `["L1","L2","L3"]`. -/
theorem c9_witness :
    (["L1", "L2", "L3"] ≠ ["L1", "L1", "L1"] ∧
     ["L1", "L2", "L3"] ≠ ["L2", "L2", "L2"] ∧
     ["L1", "L2", "L3"] ≠ ["L3", "L3", "L3"]) ∧
    (get_num_elem_nodes ["L1", "L2", "L3"] = none ∧
     ∀ (elems : List MElement) (fac : Nat) (facs : List Nat),
       mesh_refine_along_xi1 elems ["L1", "L2", "L3"] fac = none ∧
       mesh_refine_along_xi2 elems ["L1", "L2", "L3"] fac = none ∧
       mesh_refine_along_xi3 elems ["L1", "L2", "L3"] fac = none ∧
       full_refinement elems ["L1", "L2", "L3"] facs = none) :=
  ⟨⟨by decide, by decide, by decide⟩,
   c9_basis_dispatch.2.2.2 ["L1", "L2", "L3"] (by decide) (by decide) (by decide)⟩

/-- C10: for `num_points = [n,n,n]` with `n ≥ 2` and `dim = 3`,
`generate_xi_grid` returns exactly `n³` rows; the row at position
`j·n² + i·n + k` is `[k/(n-1), i/(n-1), j/(n-1)]` (first coordinate varying
fastest, third slowest), every coordinate is of the form `k/(n-1)`, and the
rows enumerate the n×n×n grid exactly once (no duplicates). -/
theorem c10_generate_xi_grid_spec (n : Nat) (hn : 2 ≤ n) :
    (generate_xi_grid [n, n, n] 3).length = n ^ 3 ∧
    (∀ j i k : Nat, j < n → i < n → k < n →
      (generate_xi_grid [n, n, n] 3).getD (j * n ^ 2 + i * n + k) [] =
        [(k : ℚ) / ((n : ℚ) - 1), (i : ℚ) / ((n : ℚ) - 1),
         (j : ℚ) / ((n : ℚ) - 1)]) ∧
    (generate_xi_grid [n, n, n] 3).Nodup := by
  refine ⟨?_, ?_, generate_xi_grid_nodup n hn⟩
  · rw [generate_xi_grid_length]
    ring
  · intro j i k hj hi hk
    rw [show j * n ^ 2 + i * n + k = j * (n * n) + (i * n + k) by ring]
    exact generate_xi_grid_getD n n n j i k hj hi hk

/-- Witness for C10 at `n = 2`. -/
theorem c10_witness :
    2 ≤ 2 ∧
    ((generate_xi_grid [2, 2, 2] 3).length = 2 ^ 3 ∧
     (∀ j i k : Nat, j < 2 → i < 2 → k < 2 →
       (generate_xi_grid [2, 2, 2] 3).getD (j * 2 ^ 2 + i * 2 + k) [] =
         [(k : ℚ) / ((2 : ℚ) - 1), (i : ℚ) / ((2 : ℚ) - 1),
          (j : ℚ) / ((2 : ℚ) - 1)]) ∧
     (generate_xi_grid [2, 2, 2] 3).Nodup) := by
  refine ⟨by norm_num, ?_⟩
  have h := c10_generate_xi_grid_spec 2 (by norm_num)
  simpa using h

/-- C6: in each single-axis refinement function, the partition at index `n`
maps the canonical grid rowwise: only the chosen axis's column is remapped
by the affine transform `xi·(hi−lo)+lo` with `lo = n/fac`,
`hi = (n+1)/fac`, while the other two columns are the canonical grid's
columns, unchanged. -/
theorem c6_single_axis_remap (xi_grid : List (List ℚ)) (fac n : Nat)
    (hn : n < fac) :
    (xi_partitions_xi1 xi_grid fac).getD n [] =
      xi_grid.map (fun row =>
        [row.getD 0 0 * (((n : ℚ) + 1) / (fac : ℚ) - (n : ℚ) / (fac : ℚ)) +
          (n : ℚ) / (fac : ℚ), row.getD 1 0, row.getD 2 0]) ∧
    (xi_partitions_xi2 xi_grid fac).getD n [] =
      xi_grid.map (fun row =>
        [row.getD 0 0,
         row.getD 1 0 * (((n : ℚ) + 1) / (fac : ℚ) - (n : ℚ) / (fac : ℚ)) +
          (n : ℚ) / (fac : ℚ), row.getD 2 0]) ∧
    (xi_partitions_xi3 xi_grid fac).getD n [] =
      xi_grid.map (fun row =>
        [row.getD 0 0, row.getD 1 0,
         row.getD 2 0 * (((n : ℚ) + 1) / (fac : ℚ) - (n : ℚ) / (fac : ℚ)) +
          (n : ℚ) / (fac : ℚ)]) :=
  ⟨getD_xi_partitions_xi1 xi_grid fac n hn,
   getD_xi_partitions_xi2 xi_grid fac n hn,
   getD_xi_partitions_xi3 xi_grid fac n hn⟩

/-- Witness for C6 at a one-row grid, `fac = 2`, partition `0`. -/
theorem c6_witness :
    0 < 2 ∧
    ((xi_partitions_xi1 [[1/2, 1/3, 1/4]] 2).getD 0 [] =
      ([[1/2, 1/3, 1/4]] : List (List ℚ)).map (fun row =>
        [row.getD 0 0 * (((0 : ℚ) + 1) / (2 : ℚ) - (0 : ℚ) / (2 : ℚ)) +
          (0 : ℚ) / (2 : ℚ), row.getD 1 0, row.getD 2 0]) ∧
     (xi_partitions_xi2 [[1/2, 1/3, 1/4]] 2).getD 0 [] =
      ([[1/2, 1/3, 1/4]] : List (List ℚ)).map (fun row =>
        [row.getD 0 0,
         row.getD 1 0 * (((0 : ℚ) + 1) / (2 : ℚ) - (0 : ℚ) / (2 : ℚ)) +
          (0 : ℚ) / (2 : ℚ), row.getD 2 0]) ∧
     (xi_partitions_xi3 [[1/2, 1/3, 1/4]] 2).getD 0 [] =
      ([[1/2, 1/3, 1/4]] : List (List ℚ)).map (fun row =>
        [row.getD 0 0, row.getD 1 0,
         row.getD 2 0 * (((0 : ℚ) + 1) / (2 : ℚ) - (0 : ℚ) / (2 : ℚ)) +
          (0 : ℚ) / (2 : ℚ)])) := by
  refine ⟨by norm_num, ?_⟩
  have h := c6_single_axis_remap [[1/2, 1/3, 1/4]] 2 0 (by norm_num)
  simpa using h

/-- A concrete trilinear element: the unit cube with its 8 corner nodes in
canonical local order (xi1 index fastest). -/
def cubeElem : MElement :=
  ⟨["L1", "L1", "L1"],
   [[0, 0, 0], [1, 0, 0], [0, 1, 0], [1, 1, 0],
    [0, 0, 1], [1, 0, 1], [0, 1, 1], [1, 1, 1]]⟩

/-- C1: every refinement call deduplicates the evaluated physical points
globally: the returned node array lists the distinct evaluated points in
first-seen order (indices assigned from 0 in order of first occurrence),
every connectivity entry is the index assigned to the corresponding
evaluated point, and two evaluated points collapse to one node exactly when
their exact coordinate tuples are equal. -/
theorem c1_global_dedup (elems : List MElement) (basis : List String)
    (nen : List Nat) (hB : ∀ e ∈ elems, (elemBasisOrders e).isSome)
    (hb : get_num_elem_nodes basis = some nen) :
    (∀ fac : Nat, ∃ mesh xn xe,
      mesh_refine_along_xi1 elems basis fac = some (mesh, xn, xe) ∧
      DedupSpec elems (xi_partitions_xi1 (generate_xi_grid nen 3) fac) xn xe) ∧
    (∀ fac : Nat, ∃ mesh xn xe,
      mesh_refine_along_xi2 elems basis fac = some (mesh, xn, xe) ∧
      DedupSpec elems (xi_partitions_xi2 (generate_xi_grid nen 3) fac) xn xe) ∧
    (∀ fac : Nat, ∃ mesh xn xe,
      mesh_refine_along_xi3 elems basis fac = some (mesh, xn, xe) ∧
      DedupSpec elems (xi_partitions_xi3 (generate_xi_grid nen 3) fac) xn xe) ∧
    (∀ facs : List Nat, ∃ mesh xn xe,
      full_refinement elems basis facs = some (mesh, xn, xe) ∧
      DedupSpec elems (xi_partitions_full (generate_xi_grid nen 3) facs) xn xe) := by
  refine ⟨fun fac => ?_, fun fac => ?_, fun fac => ?_, fun facs => ?_⟩
  · exact ⟨_, _, _, refine_xi1_eq elems basis nen fac hb hB,
      dedupSpec_refined elems _⟩
  · exact ⟨_, _, _, refine_xi2_eq elems basis nen fac hb hB,
      dedupSpec_refined elems _⟩
  · exact ⟨_, _, _, refine_xi3_eq elems basis nen fac hb hB,
      dedupSpec_refined elems _⟩
  · exact ⟨_, _, _, refine_full_eq elems basis nen facs hb hB,
      dedupSpec_refined elems _⟩

/-- Witness for C1 at a one-element trilinear mesh. -/
theorem c1_witness :
    ((∀ e ∈ [cubeElem], (elemBasisOrders e).isSome) ∧
     get_num_elem_nodes ["L1", "L1", "L1"] = some [2, 2, 2]) ∧
    ((∀ fac : Nat, ∃ mesh xn xe,
      mesh_refine_along_xi1 [cubeElem] ["L1", "L1", "L1"] fac = some (mesh, xn, xe) ∧
      DedupSpec [cubeElem]
        (xi_partitions_xi1 (generate_xi_grid [2, 2, 2] 3) fac) xn xe) ∧
    (∀ fac : Nat, ∃ mesh xn xe,
      mesh_refine_along_xi2 [cubeElem] ["L1", "L1", "L1"] fac = some (mesh, xn, xe) ∧
      DedupSpec [cubeElem]
        (xi_partitions_xi2 (generate_xi_grid [2, 2, 2] 3) fac) xn xe) ∧
    (∀ fac : Nat, ∃ mesh xn xe,
      mesh_refine_along_xi3 [cubeElem] ["L1", "L1", "L1"] fac = some (mesh, xn, xe) ∧
      DedupSpec [cubeElem]
        (xi_partitions_xi3 (generate_xi_grid [2, 2, 2] 3) fac) xn xe) ∧
    (∀ facs : List Nat, ∃ mesh xn xe,
      full_refinement [cubeElem] ["L1", "L1", "L1"] facs = some (mesh, xn, xe) ∧
      DedupSpec [cubeElem]
        (xi_partitions_full (generate_xi_grid [2, 2, 2] 3) facs) xn xe)) :=
  ⟨⟨by decide, by decide⟩,
   c1_global_dedup [cubeElem] ["L1", "L1", "L1"] [2, 2, 2] (by decide) (by decide)⟩

/-- C2: each axis is partitioned into `f` equal sub-intervals
`[n/f,(n+1)/f]`; full refinement combines them by cross product with axis 1
outermost and axis 3 innermost into `f1·f2·f3` partitions and produces
exactly `E·f1·f2·f3` sub-elements; each single-axis variant with factor `f`
produces exactly `E·f` sub-elements. -/
theorem c2_partition_structure (elems : List MElement) (basis : List String)
    (nen : List Nat) (f1 f2 f3 : Nat)
    (hB : ∀ e ∈ elems, (elemBasisOrders e).isSome)
    (hb : get_num_elem_nodes basis = some nen) :
    (∀ f n : Nat, n < f → (elem_partitions f).getD n (0, 0) =
      ((n : ℚ) / (f : ℚ), ((n : ℚ) + 1) / (f : ℚ))) ∧
    (∀ f : Nat, (elem_partitions f).length = f) ∧
    (xi_partitions_full (generate_xi_grid nen 3) [f1, f2, f3]).length =
      f1 * f2 * f3 ∧
    (∀ a b c : Nat, a < f1 → b < f2 → c < f3 →
      (xi_partitions_full (generate_xi_grid nen 3) [f1, f2, f3]).getD
          ((a * f2 + b) * f3 + c) [] =
        (generate_xi_grid nen 3).map (fun row =>
          [row.getD 0 0 * (((a : ℚ) + 1) / (f1 : ℚ) - (a : ℚ) / (f1 : ℚ)) +
            (a : ℚ) / (f1 : ℚ),
           row.getD 1 0 * (((b : ℚ) + 1) / (f2 : ℚ) - (b : ℚ) / (f2 : ℚ)) +
            (b : ℚ) / (f2 : ℚ),
           row.getD 2 0 * (((c : ℚ) + 1) / (f3 : ℚ) - (c : ℚ) / (f3 : ℚ)) +
            (c : ℚ) / (f3 : ℚ)])) ∧
    (∃ mesh xn xe,
      full_refinement elems basis [f1, f2, f3] = some (mesh, xn, xe) ∧
      xe.length = elems.length * (f1 * f2 * f3)) ∧
    (∀ fac : Nat, ∃ mesh xn xe,
      mesh_refine_along_xi1 elems basis fac = some (mesh, xn, xe) ∧
      xe.length = elems.length * fac) ∧
    (∀ fac : Nat, ∃ mesh xn xe,
      mesh_refine_along_xi2 elems basis fac = some (mesh, xn, xe) ∧
      xe.length = elems.length * fac) ∧
    (∀ fac : Nat, ∃ mesh xn xe,
      mesh_refine_along_xi3 elems basis fac = some (mesh, xn, xe) ∧
      xe.length = elems.length * fac) := by
  refine ⟨fun f n hn => getD_elem_partitions f n hn (0, 0),
    length_elem_partitions, ?_, ?_, ?_, ?_, ?_, ?_⟩
  · rw [length_xi_partitions_full]
    ring
  · intro a b c ha hb' hc
    rw [show (a * f2 + b) * f3 + c = a * (f2 * f3) + (b * f3 + c) by ring]
    exact getD_xi_partitions_full _ f1 f2 f3 a b c ha hb' hc
  · refine ⟨_, _, _, refine_full_eq elems basis nen [f1, f2, f3] hb hB, ?_⟩
    rw [length_refinedConn, length_xi_partitions_full]
    ring
  · intro fac
    refine ⟨_, _, _, refine_xi1_eq elems basis nen fac hb hB, ?_⟩
    rw [length_refinedConn, length_xi_partitions_xi1]
  · intro fac
    refine ⟨_, _, _, refine_xi2_eq elems basis nen fac hb hB, ?_⟩
    rw [length_refinedConn, length_xi_partitions_xi2]
  · intro fac
    refine ⟨_, _, _, refine_xi3_eq elems basis nen fac hb hB, ?_⟩
    rw [length_refinedConn, length_xi_partitions_xi3]

/-- When every element evaluates the single partition grid to its own node
values, the evaluated points are exactly the concatenated node values. -/
theorem refinedPts_single_part (elems : List MElement) (part : List (List ℚ))
    (h : ∀ e ∈ elems, elemEvaluate e part = some e.nodeVals) :
    refinedPts elems [part] = elems.flatMap (fun e => e.nodeVals) := by
  rw [refinedPts, refinedChunks]
  induction elems with
  | nil => rfl
  | cons e es ih =>
    rw [List.flatMap_cons, List.flatMap_cons, List.map_cons, List.map_nil,
      h e (List.mem_cons_self e es), Option.getD_some, List.singleton_append,
      List.flatten_cons, ih (fun e' he' => h e' (List.mem_cons_of_mem e he'))]

/-- With per-axis factors `[1,1,1]` the refined node list is the first-seen
deduplication of the source elements' own node values. -/
theorem refinedNodes_full_one (elems : List MElement) (o n : Nat)
    (ho : o = 1 ∨ o = 2 ∨ o = 3) (hn : n = o + 1)
    (hbasis : ∀ e ∈ elems, elemBasisOrders e = some (o, o, o))
    (hlen : ∀ e ∈ elems, e.nodeVals.length = n * (n * n))
    (hd : ∀ e ∈ elems, ∃ d, ∀ v ∈ e.nodeVals, v.length = d) :
    refinedNodes elems
        (xi_partitions_full (generate_xi_grid [n, n, n] 3) [1, 1, 1])
      = dedupFold [] (elems.flatMap (fun e => e.nodeVals)) := by
  rw [refinedNodes,
    xi_partitions_full_one _ (fun row hr => mem_generate_xi_grid n n n row hr),
    refinedPts_single_part elems _ ?_]
  intro e he
  obtain ⟨d, hd'⟩ := hd e he
  exact elemEvaluate_grid_self e o n ho hn (hbasis e he) (hlen e he) d hd'

/-- C3 (amended): refinement never compares the target basis against the
source elements' bases; with resolvable element bases, each refinement
function succeeds exactly when the target basis descriptor itself is one of
the supported uniform Lagrange lists — a mismatching but supported target
basis is not rejected. -/
theorem c3_target_basis_only (elems : List MElement)
    (hB : ∀ e ∈ elems, (elemBasisOrders e).isSome)
    (basis : List String) (fac : Nat) (facs : List Nat) :
    ((mesh_refine_along_xi1 elems basis fac).isSome ↔
      (get_num_elem_nodes basis).isSome) ∧
    ((mesh_refine_along_xi2 elems basis fac).isSome ↔
      (get_num_elem_nodes basis).isSome) ∧
    ((mesh_refine_along_xi3 elems basis fac).isSome ↔
      (get_num_elem_nodes basis).isSome) ∧
    ((full_refinement elems basis facs).isSome ↔
      (get_num_elem_nodes basis).isSome) := by
  cases hg : get_num_elem_nodes basis with
  | none =>
    refine ⟨?_, ?_, ?_, ?_⟩
    · rw [mesh_refine_along_xi1, hg]; simp
    · rw [mesh_refine_along_xi2, hg]; simp
    · rw [mesh_refine_along_xi3, hg]; simp
    · rw [full_refinement, hg]; simp
  | some nen =>
    refine ⟨?_, ?_, ?_, ?_⟩
    · rw [refine_xi1_eq elems basis nen fac hg hB]; simp
    · rw [refine_xi2_eq elems basis nen fac hg hB]; simp
    · rw [refine_xi3_eq elems basis nen fac hg hB]; simp
    · rw [refine_full_eq elems basis nen facs hg hB]; simp

/-- Counterexample to C3 as stated: a source element with basis
`["L1","L1","L1"]` refined with the different (but supported) target basis
`["L2","L2","L2"]` does not fail — the call succeeds. -/
theorem c3_counterexample :
    cubeElem.basis = ["L1", "L1", "L1"] ∧
    (["L1", "L1", "L1"] : List String) ≠ ["L2", "L2", "L2"] ∧
    (mesh_refine_along_xi1 [cubeElem] ["L2", "L2", "L2"] 2).isSome = true := by
  refine ⟨rfl, by decide, ?_⟩
  rw [refine_xi1_eq [cubeElem] ["L2", "L2", "L2"] [3, 3, 3] 2 (by decide)
    (by decide)]
  rfl

/-- Witness for C3 (amended) at the mixed pair (source `L1`, target `L2`). -/
theorem c3_witness :
    (∀ e ∈ [cubeElem], (elemBasisOrders e).isSome) ∧
    (((mesh_refine_along_xi1 [cubeElem] ["L2", "L2", "L2"] 2).isSome ↔
       (get_num_elem_nodes ["L2", "L2", "L2"]).isSome) ∧
     ((mesh_refine_along_xi2 [cubeElem] ["L2", "L2", "L2"] 2).isSome ↔
       (get_num_elem_nodes ["L2", "L2", "L2"]).isSome) ∧
     ((mesh_refine_along_xi3 [cubeElem] ["L2", "L2", "L2"] 2).isSome ↔
       (get_num_elem_nodes ["L2", "L2", "L2"]).isSome) ∧
     ((full_refinement [cubeElem] ["L2", "L2", "L2"] [2, 2, 2]).isSome ↔
       (get_num_elem_nodes ["L2", "L2", "L2"]).isSome)) :=
  ⟨by decide,
   c3_target_basis_only [cubeElem] (by decide) ["L2", "L2", "L2"] 2 [2, 2, 2]⟩

/-- Counterexample to C4 as stated: node ids in the constructed mesh are the
assigned deduplication indices plus one (1-based), not the assigned indices
themselves — the mesh of the refined unit cube has node ids 1..8, not
0..7. -/
theorem c4_counterexample :
    (full_refinement [cubeElem] ["L1", "L1", "L1"] [1, 1, 1]).map
        (fun r => r.1.nodes.map Prod.fst) = some [1, 2, 3, 4, 5, 6, 7, 8] ∧
    ¬ (full_refinement [cubeElem] ["L1", "L1", "L1"] [1, 1, 1]).map
        (fun r => r.1.nodes.map Prod.fst) = some [0, 1, 2, 3, 4, 5, 6, 7] := by
  have hB : ∀ e ∈ [cubeElem], (elemBasisOrders e).isSome := by decide
  have hxn : refinedNodes [cubeElem]
      (xi_partitions_full (generate_xi_grid [2, 2, 2] 3) [1, 1, 1])
      = cubeElem.nodeVals := by
    rw [refinedNodes_full_one [cubeElem] 1 2 (Or.inl rfl) rfl (by decide)
      (by decide) ?_]
    · rw [List.flatMap_cons, List.flatMap_nil, List.append_nil,
        dedupFold_of_nodup [] _ (by decide) (by intro x hx h0; simp at h0)]
      rfl
    · intro e he
      rcases List.mem_singleton.mp he with rfl
      exact ⟨3, by decide⟩
  have hmain : (full_refinement [cubeElem] ["L1", "L1", "L1"] [1, 1, 1]).map
      (fun r => r.1.nodes.map Prod.fst) = some [1, 2, 3, 4, 5, 6, 7, 8] := by
    rw [refine_full_eq [cubeElem] ["L1", "L1", "L1"] [2, 2, 2] [1, 1, 1]
      (by decide) hB, Option.map_some']
    show some ((create_morphic_mesh _ _ _).nodes.map Prod.fst) = _
    rw [create_mesh_node_ids, hxn]
    decide
  exact ⟨hmain, by rw [hmain]; decide⟩

/-- C4 (amended): every refinement call returns the mesh built by
`create_morphic_mesh`: one node per distinct deduplicated point in
assigned-index order with id equal to the assigned index **plus one**, one
element per (source element × partition) pair carrying the resolved node-id
list **shifted by plus one** and the target basis, with the generated flag
set; node and connectivity arrays satisfy the deduplication contract. -/
theorem c4_mesh_construction (elems : List MElement) (basis : List String)
    (nen : List Nat) (hB : ∀ e ∈ elems, (elemBasisOrders e).isSome)
    (hb : get_num_elem_nodes basis = some nen) :
    (∀ facs : List Nat, ∃ mesh xn xe,
      full_refinement elems basis facs = some (mesh, xn, xe) ∧
      mesh = create_morphic_mesh basis xn xe ∧
      mesh.nodes = (List.range xn.length).map (fun i => (i + 1, xn.getD i [])) ∧
      mesh.elements = (List.range xe.length).map
        (fun i => (i + 1, basis, (xe.getD i []).map (· + 1))) ∧
      mesh.generated = true ∧
      xe.length = elems.length *
        (xi_partitions_full (generate_xi_grid nen 3) facs).length ∧
      DedupSpec elems (xi_partitions_full (generate_xi_grid nen 3) facs) xn xe) ∧
    (∀ fac : Nat, ∃ mesh xn xe,
      mesh_refine_along_xi1 elems basis fac = some (mesh, xn, xe) ∧
      mesh = create_morphic_mesh basis xn xe ∧
      mesh.nodes = (List.range xn.length).map (fun i => (i + 1, xn.getD i [])) ∧
      mesh.elements = (List.range xe.length).map
        (fun i => (i + 1, basis, (xe.getD i []).map (· + 1))) ∧
      mesh.generated = true ∧
      DedupSpec elems (xi_partitions_xi1 (generate_xi_grid nen 3) fac) xn xe) ∧
    (∀ fac : Nat, ∃ mesh xn xe,
      mesh_refine_along_xi2 elems basis fac = some (mesh, xn, xe) ∧
      mesh = create_morphic_mesh basis xn xe ∧
      mesh.nodes = (List.range xn.length).map (fun i => (i + 1, xn.getD i [])) ∧
      mesh.elements = (List.range xe.length).map
        (fun i => (i + 1, basis, (xe.getD i []).map (· + 1))) ∧
      mesh.generated = true ∧
      DedupSpec elems (xi_partitions_xi2 (generate_xi_grid nen 3) fac) xn xe) ∧
    (∀ fac : Nat, ∃ mesh xn xe,
      mesh_refine_along_xi3 elems basis fac = some (mesh, xn, xe) ∧
      mesh = create_morphic_mesh basis xn xe ∧
      mesh.nodes = (List.range xn.length).map (fun i => (i + 1, xn.getD i [])) ∧
      mesh.elements = (List.range xe.length).map
        (fun i => (i + 1, basis, (xe.getD i []).map (· + 1))) ∧
      mesh.generated = true ∧
      DedupSpec elems (xi_partitions_xi3 (generate_xi_grid nen 3) fac) xn xe) := by
  refine ⟨fun facs => ?_, fun fac => ?_, fun fac => ?_, fun fac => ?_⟩
  · refine ⟨_, _, _, refine_full_eq elems basis nen facs hb hB, rfl, rfl, rfl,
      rfl, ?_, dedupSpec_refined elems _⟩
    rw [length_refinedConn]
  · exact ⟨_, _, _, refine_xi1_eq elems basis nen fac hb hB, rfl, rfl, rfl,
      rfl, dedupSpec_refined elems _⟩
  · exact ⟨_, _, _, refine_xi2_eq elems basis nen fac hb hB, rfl, rfl, rfl,
      rfl, dedupSpec_refined elems _⟩
  · exact ⟨_, _, _, refine_xi3_eq elems basis nen fac hb hB, rfl, rfl, rfl,
      rfl, dedupSpec_refined elems _⟩

/-- Witness for C4 (amended) at the one-element trilinear mesh. -/
theorem c4_witness :
    ((∀ e ∈ [cubeElem], (elemBasisOrders e).isSome) ∧
     get_num_elem_nodes ["L1", "L1", "L1"] = some [2, 2, 2]) ∧
    ((∀ facs : List Nat, ∃ mesh xn xe,
      full_refinement [cubeElem] ["L1", "L1", "L1"] facs = some (mesh, xn, xe) ∧
      mesh = create_morphic_mesh ["L1", "L1", "L1"] xn xe ∧
      mesh.nodes = (List.range xn.length).map (fun i => (i + 1, xn.getD i [])) ∧
      mesh.elements = (List.range xe.length).map
        (fun i => (i + 1, ["L1", "L1", "L1"], (xe.getD i []).map (· + 1))) ∧
      mesh.generated = true ∧
      xe.length = (1 : Nat) *
        (xi_partitions_full (generate_xi_grid [2, 2, 2] 3) facs).length ∧
      DedupSpec [cubeElem]
        (xi_partitions_full (generate_xi_grid [2, 2, 2] 3) facs) xn xe) ∧
    (∀ fac : Nat, ∃ mesh xn xe,
      mesh_refine_along_xi1 [cubeElem] ["L1", "L1", "L1"] fac =
        some (mesh, xn, xe) ∧
      mesh = create_morphic_mesh ["L1", "L1", "L1"] xn xe ∧
      mesh.nodes = (List.range xn.length).map (fun i => (i + 1, xn.getD i [])) ∧
      mesh.elements = (List.range xe.length).map
        (fun i => (i + 1, ["L1", "L1", "L1"], (xe.getD i []).map (· + 1))) ∧
      mesh.generated = true ∧
      DedupSpec [cubeElem]
        (xi_partitions_xi1 (generate_xi_grid [2, 2, 2] 3) fac) xn xe) ∧
    (∀ fac : Nat, ∃ mesh xn xe,
      mesh_refine_along_xi2 [cubeElem] ["L1", "L1", "L1"] fac =
        some (mesh, xn, xe) ∧
      mesh = create_morphic_mesh ["L1", "L1", "L1"] xn xe ∧
      mesh.nodes = (List.range xn.length).map (fun i => (i + 1, xn.getD i [])) ∧
      mesh.elements = (List.range xe.length).map
        (fun i => (i + 1, ["L1", "L1", "L1"], (xe.getD i []).map (· + 1))) ∧
      mesh.generated = true ∧
      DedupSpec [cubeElem]
        (xi_partitions_xi2 (generate_xi_grid [2, 2, 2] 3) fac) xn xe) ∧
    (∀ fac : Nat, ∃ mesh xn xe,
      mesh_refine_along_xi3 [cubeElem] ["L1", "L1", "L1"] fac =
        some (mesh, xn, xe) ∧
      mesh = create_morphic_mesh ["L1", "L1", "L1"] xn xe ∧
      mesh.nodes = (List.range xn.length).map (fun i => (i + 1, xn.getD i [])) ∧
      mesh.elements = (List.range xe.length).map
        (fun i => (i + 1, ["L1", "L1", "L1"], (xe.getD i []).map (· + 1))) ∧
      mesh.generated = true ∧
      DedupSpec [cubeElem]
        (xi_partitions_xi3 (generate_xi_grid [2, 2, 2] 3) fac) xn xe)) :=
  ⟨⟨by decide, by decide⟩,
   c4_mesh_construction [cubeElem] ["L1", "L1", "L1"] [2, 2, 2]
     (by decide) (by decide)⟩

/-- C5: full refinement with factors `(1,1,1)` on a generated mesh whose
elements carry the (supported, uniform) target basis is a no-op up to
relabeling: the refined node set consists of exactly the coordinates of the
source mesh's element-node points. -/
theorem c5_full_refinement_noop (elems : List MElement) (basis : List String)
    (o n : Nat) (ho : o = 1 ∨ o = 2 ∨ o = 3) (hn : n = o + 1)
    (hbasis : ∀ e ∈ elems, elemBasisOrders e = some (o, o, o))
    (hnen : get_num_elem_nodes basis = some [n, n, n])
    (hlen : ∀ e ∈ elems, e.nodeVals.length = n * (n * n))
    (hd : ∀ e ∈ elems, ∃ d, ∀ v ∈ e.nodeVals, v.length = d) :
    ∃ mesh xn xe,
      full_refinement elems basis [1, 1, 1] = some (mesh, xn, xe) ∧
      ∀ p, (p ∈ xn ↔ ∃ e ∈ elems, p ∈ e.nodeVals) := by
  have hB : ∀ e ∈ elems, (elemBasisOrders e).isSome := fun e he => by
    rw [hbasis e he]; rfl
  refine ⟨_, _, _, refine_full_eq elems basis [n, n, n] [1, 1, 1] hnen hB, ?_⟩
  intro p
  rw [refinedNodes_full_one elems o n ho hn hbasis hlen hd, mem_dedupFold]
  simp [List.mem_flatMap]

/-- Witness for C5 at the one-element trilinear unit cube. -/
theorem c5_witness :
    ((1 = 1 ∨ 1 = 2 ∨ 1 = 3) ∧ 2 = 1 + 1 ∧
     (∀ e ∈ [cubeElem], elemBasisOrders e = some (1, 1, 1)) ∧
     get_num_elem_nodes ["L1", "L1", "L1"] = some [2, 2, 2] ∧
     (∀ e ∈ [cubeElem], e.nodeVals.length = 2 * (2 * 2))) ∧
    (∃ mesh xn xe,
      full_refinement [cubeElem] ["L1", "L1", "L1"] [1, 1, 1] =
        some (mesh, xn, xe) ∧
      ∀ p, (p ∈ xn ↔ ∃ e ∈ [cubeElem], p ∈ e.nodeVals)) :=
  ⟨⟨Or.inl rfl, rfl, by decide, by decide, by decide⟩,
   c5_full_refinement_noop [cubeElem] ["L1", "L1", "L1"] 1 2 (Or.inl rfl) rfl
     (by decide) (by decide) (by decide)
     (by
       intro e he
       rcases List.mem_singleton.mp he with rfl
       exact ⟨3, by decide⟩)⟩

/-- Witness for C2 at the one-element trilinear mesh with factors (2,1,1). -/
theorem c2_witness :
    ((∀ e ∈ [cubeElem], (elemBasisOrders e).isSome) ∧
     get_num_elem_nodes ["L1", "L1", "L1"] = some [2, 2, 2]) ∧
    ((∀ f n : Nat, n < f → (elem_partitions f).getD n (0, 0) =
      ((n : ℚ) / (f : ℚ), ((n : ℚ) + 1) / (f : ℚ))) ∧
    (∀ f : Nat, (elem_partitions f).length = f) ∧
    (xi_partitions_full (generate_xi_grid [2, 2, 2] 3) [2, 1, 1]).length =
      2 * 1 * 1 ∧
    (∀ a b c : Nat, a < 2 → b < 1 → c < 1 →
      (xi_partitions_full (generate_xi_grid [2, 2, 2] 3) [2, 1, 1]).getD
          ((a * 1 + b) * 1 + c) [] =
        (generate_xi_grid [2, 2, 2] 3).map (fun row =>
          [row.getD 0 0 * (((a : ℚ) + 1) / (2 : ℚ) - (a : ℚ) / (2 : ℚ)) +
            (a : ℚ) / (2 : ℚ),
           row.getD 1 0 * (((b : ℚ) + 1) / (1 : ℚ) - (b : ℚ) / (1 : ℚ)) +
            (b : ℚ) / (1 : ℚ),
           row.getD 2 0 * (((c : ℚ) + 1) / (1 : ℚ) - (c : ℚ) / (1 : ℚ)) +
            (c : ℚ) / (1 : ℚ)])) ∧
    (∃ mesh xn xe,
      full_refinement [cubeElem] ["L1", "L1", "L1"] [2, 1, 1] =
        some (mesh, xn, xe) ∧
      xe.length = (1 : Nat) * (2 * 1 * 1)) ∧
    (∀ fac : Nat, ∃ mesh xn xe,
      mesh_refine_along_xi1 [cubeElem] ["L1", "L1", "L1"] fac =
        some (mesh, xn, xe) ∧ xe.length = (1 : Nat) * fac) ∧
    (∀ fac : Nat, ∃ mesh xn xe,
      mesh_refine_along_xi2 [cubeElem] ["L1", "L1", "L1"] fac =
        some (mesh, xn, xe) ∧ xe.length = (1 : Nat) * fac) ∧
    (∀ fac : Nat, ∃ mesh xn xe,
      mesh_refine_along_xi3 [cubeElem] ["L1", "L1", "L1"] fac =
        some (mesh, xn, xe) ∧ xe.length = (1 : Nat) * fac)) := by
  refine ⟨⟨by decide, by decide⟩, ?_⟩
  have h := c2_partition_structure [cubeElem] ["L1", "L1", "L1"] [2, 2, 2]
    2 1 1 (by decide) (by decide)
  simpa using h

/-- C7: a batch of sub-slice writes into a node's Store region mutates only
the addressed Store elements — every other position keeps its previous
value, the Store length is unchanged, and each written value is immediately
visible by direct Store inspection at the corresponding offset. -/
theorem c7_subslice_write_locality (P : List ℚ) (offset cols : Nat)
    (writes : List (Nat × Nat × ℚ))
    (hb : ∀ w ∈ writes, offset + w.1 * cols + w.2.1 < P.length)
    (hnd : (writes.map (fun w => offset + w.1 * cols + w.2.1)).Nodup) :
    (nodeWriteSub P offset cols writes).length = P.length ∧
    (∀ p : Nat, (∀ w ∈ writes, p ≠ offset + w.1 * cols + w.2.1) →
      (nodeWriteSub P offset cols writes).getD p 0 = P.getD p 0) ∧
    (∀ w ∈ writes,
      (nodeWriteSub P offset cols writes).getD
        (offset + w.1 * cols + w.2.1) 0 = w.2.2) :=
  ⟨length_nodeWriteSub P offset cols writes,
   fun p hp => nodeWriteSub_getD_of_ne P offset cols writes p hp,
   nodeWriteSub_getD_mem P offset cols writes hb hnd⟩

/-- Witness for C7: writing column 0 of the first 2×3 node in a two-node
Store, mirroring `test_set_slices`. -/
theorem c7_witness :
    ((∀ w ∈ [((0 : Nat), (0 : Nat), (99 : ℚ)), (1, 0, 33)],
       0 + w.1 * 3 + w.2.1 <
         ([0, 1/10, 1/5, 3/10, 2/5, 1/2, 11, 12, 13, 15, 16, 66] :
           List ℚ).length) ∧
     (([((0 : Nat), (0 : Nat), (99 : ℚ)), (1, 0, 33)].map
        (fun w => 0 + w.1 * 3 + w.2.1)).Nodup)) ∧
    ((nodeWriteSub [0, 1/10, 1/5, 3/10, 2/5, 1/2, 11, 12, 13, 15, 16, 66] 0 3
        [((0 : Nat), (0 : Nat), (99 : ℚ)), (1, 0, 33)]).length =
      ([0, 1/10, 1/5, 3/10, 2/5, 1/2, 11, 12, 13, 15, 16, 66] :
        List ℚ).length ∧
     (∀ p : Nat,
       (∀ w ∈ [((0 : Nat), (0 : Nat), (99 : ℚ)), (1, 0, 33)],
         p ≠ 0 + w.1 * 3 + w.2.1) →
       (nodeWriteSub [0, 1/10, 1/5, 3/10, 2/5, 1/2, 11, 12, 13, 15, 16, 66] 0 3
          [((0 : Nat), (0 : Nat), (99 : ℚ)), (1, 0, 33)]).getD p 0 =
         ([0, 1/10, 1/5, 3/10, 2/5, 1/2, 11, 12, 13, 15, 16, 66] :
           List ℚ).getD p 0) ∧
     (∀ w ∈ [((0 : Nat), (0 : Nat), (99 : ℚ)), (1, 0, 33)],
       (nodeWriteSub [0, 1/10, 1/5, 3/10, 2/5, 1/2, 11, 12, 13, 15, 16, 66] 0 3
          [((0 : Nat), (0 : Nat), (99 : ℚ)), (1, 0, 33)]).getD
         (0 + w.1 * 3 + w.2.1) 0 = w.2.2)) :=
  ⟨⟨by decide, by decide⟩,
   c7_subslice_write_locality
     [0, 1/10, 1/5, 3/10, 2/5, 1/2, 11, 12, 13, 15, 16, 66] 0 3
     [((0 : Nat), (0 : Nat), (99 : ℚ)), (1, 0, 33)] (by decide) (by decide)⟩

theorem rowcol_inj (cols i j i' j' : Nat) (hj : j < cols) (hj' : j' < cols)
    (h : i * cols + j = i' * cols + j') : i = i' ∧ j = j' := by
  have hc : 0 < cols := by omega
  have h1 : (i * cols + j) / cols = i := by
    rw [show i * cols + j = j + i * cols by ring,
      Nat.add_mul_div_right _ _ hc, Nat.div_eq_of_lt hj, Nat.zero_add]
  have h2 : (i' * cols + j') / cols = i' := by
    rw [show i' * cols + j' = j' + i' * cols by ring,
      Nat.add_mul_div_right _ _ hc, Nat.div_eq_of_lt hj', Nat.zero_add]
  have hi : i = i' := by rw [← h1, ← h2, h]
  subst hi
  exact ⟨rfl, by omega⟩

/-- The write list used by `nodeSetValues` addresses pairwise-distinct
Store positions. -/
theorem setValues_targets_nodup (offset rows cols : Nat)
    (vals : List (List ℚ)) :
    (((List.range rows).flatMap (fun i => (List.range cols).map
        (fun j => (i, j, (vals.getD i []).getD j 0)))).map
      (fun w => offset + w.1 * cols + w.2.1)).Nodup := by
  rw [List.map_flatMap]
  rw [List.nodup_flatMap]
  constructor
  · intro i hi
    rw [List.map_map]
    refine List.Nodup.map ?_ (List.nodup_range cols)
    intro a b hab
    simp only [Function.comp] at hab
    exact Nat.add_left_cancel hab
  · refine (List.pairwise_lt_range rows).imp ?_
    intro i i' hii
    intro x hx hx'
    simp only [List.mem_map, List.mem_range] at hx hx'
    obtain ⟨a, ⟨j, hj, rfl⟩, rfl⟩ := hx
    obtain ⟨a', ⟨j', hj', rfl⟩, heq⟩ := hx'
    have h0 : i' * cols + j' = i * cols + j := by
      have heq' : offset + i' * cols + j' = offset + i * cols + j := heq
      omega
    obtain ⟨hii', -⟩ := rowcol_inj cols i' j' i j hj' hj h0
    omega

theorem nodeSetValues_none (P : List ℚ) (offset rows cols : Nat)
    (vals : List (List ℚ))
    (h : ¬(vals.length = rows ∧ ∀ v ∈ vals, v.length = cols)) :
    nodeSetValues P offset rows cols vals = none := by
  rw [nodeSetValues, if_neg h]

theorem nodeSetValues_some (P : List ℚ) (offset rows cols : Nat)
    (vals : List (List ℚ)) (hreg : offset + rows * cols ≤ P.length)
    (hr : vals.length = rows) (hc : ∀ v ∈ vals, v.length = cols) :
    ∃ Q, nodeSetValues P offset rows cols vals = some Q ∧
      nodeRead Q offset rows cols = vals ∧
      (∀ i j : Nat, i < rows → j < cols →
        Q.getD (offset + i * cols + j) 0 = (vals.getD i []).getD j 0) ∧
      (∀ p : Nat, p < offset → Q.getD p 0 = P.getD p 0) ∧
      (∀ p : Nat, offset + rows * cols ≤ p → Q.getD p 0 = P.getD p 0) := by
  have hcond : vals.length = rows ∧ ∀ v ∈ vals, v.length = cols := ⟨hr, hc⟩
  have htb : ∀ w ∈ (List.range rows).flatMap (fun i => (List.range cols).map
      (fun j => (i, j, (vals.getD i []).getD j 0))),
      offset + w.1 * cols + w.2.1 < P.length := by
    intro w hw
    simp only [List.mem_flatMap, List.mem_map, List.mem_range] at hw
    obtain ⟨i, hi, j, hj, rfl⟩ := hw
    show offset + i * cols + j < P.length
    have h1 : i * cols + cols ≤ rows * cols := by
      rw [← Nat.succ_mul]
      exact Nat.mul_le_mul_right cols hi
    omega
  have hvis : ∀ i j : Nat, i < rows → j < cols →
      (nodeWriteSub P offset cols
        ((List.range rows).flatMap (fun i => (List.range cols).map
          (fun j => (i, j, (vals.getD i []).getD j 0))))).getD
        (offset + i * cols + j) 0 = (vals.getD i []).getD j 0 := by
    intro i j hi hj
    exact nodeWriteSub_getD_mem P offset cols _ htb
      (setValues_targets_nodup offset rows cols vals)
      (i, j, (vals.getD i []).getD j 0)
      (by
        simp only [List.mem_flatMap, List.mem_map, List.mem_range]
        exact ⟨i, hi, j, hj, rfl⟩)
  have hlenR : (nodeRead (nodeWriteSub P offset cols
      ((List.range rows).flatMap (fun i => (List.range cols).map
        (fun j => (i, j, (vals.getD i []).getD j 0))))) offset rows cols).length
      = rows := by
    rw [nodeRead, List.length_map, List.length_range]
  refine ⟨_, by rw [nodeSetValues, if_pos hcond], ?_, hvis, ?_, ?_⟩
  · refine List.ext_getElem ?_ ?_
    · rw [hlenR, hr]
    · intro i h1 h2
      rw [hlenR] at h1
      show ((List.range rows).map (fun i => (List.range cols).map
        (fun j => (nodeWriteSub P offset cols
          ((List.range rows).flatMap (fun i => (List.range cols).map
            (fun j => (i, j, (vals.getD i []).getD j 0))))).getD
          (offset + i * cols + j) 0)))[i] = vals[i]
      rw [List.getElem_map, List.getElem_range]
      have hvi : vals[i] ∈ vals := List.getElem_mem h2
      refine List.ext_getElem ?_ ?_
      · rw [List.length_map, List.length_range, hc _ hvi]
      · intro j hj1 hj2
        rw [List.length_map, List.length_range] at hj1
        rw [List.getElem_map, List.getElem_range,
          hvis i j h1 hj1, List.getD_eq_getElem vals [] h2,
          List.getD_eq_getElem vals[i] 0 hj2]
  · intro p hp
    refine nodeWriteSub_getD_of_ne P offset cols _ p ?_
    intro w hw
    omega
  · intro p hp
    refine nodeWriteSub_getD_of_ne P offset cols _ p ?_
    intro w hw
    simp only [List.mem_flatMap, List.mem_map, List.mem_range] at hw
    obtain ⟨i, hi, j, hj, rfl⟩ := hw
    show p ≠ offset + i * cols + j
    have h1 : i * cols + cols ≤ rows * cols := by
      rw [← Nat.succ_mul]
      exact Nat.mul_le_mul_right cols hi
    omega

/-- C8 (amended): assigning a whole value array whose shape differs from
the node's declared `rows × cols` shape fails with ShapeMismatch (`none`,
Store untouched); assigning a value of exactly the declared shape succeeds,
and the new values are immediately visible both through the node's view
(`nodeRead`) and through direct Store inspection at the corresponding
offsets, with every Store element outside the node's region unchanged. -/
theorem c8_assign_values (P : List ℚ) (offset rows cols : Nat)
    (vals : List (List ℚ)) (hreg : offset + rows * cols ≤ P.length) :
    ((vals.length ≠ rows ∨ ∃ v ∈ vals, v.length ≠ cols) →
      nodeSetValues P offset rows cols vals = none) ∧
    (vals.length = rows → (∀ v ∈ vals, v.length = cols) →
      ∃ Q, nodeSetValues P offset rows cols vals = some Q ∧
        nodeRead Q offset rows cols = vals ∧
        (∀ i j : Nat, i < rows → j < cols →
          Q.getD (offset + i * cols + j) 0 = (vals.getD i []).getD j 0) ∧
        (∀ p : Nat, p < offset → Q.getD p 0 = P.getD p 0) ∧
        (∀ p : Nat, offset + rows * cols ≤ p → Q.getD p 0 = P.getD p 0)) := by
  constructor
  · intro h
    refine nodeSetValues_none P offset rows cols vals ?_
    rintro ⟨h1, h2⟩
    rcases h with h | ⟨v, hv, hlen⟩
    · exact h h1
    · exact hlen (h2 v hv)
  · intro hr hc
    exact nodeSetValues_some P offset rows cols vals hreg hr hc

/-- Counterexample to C8 as stated: assigning a 3×2 value (total element
count 6) to a 2×3 node (declared count 6) fails even though the total
element counts agree — the repository's own
`test_set_all_different_shape` pins this behaviour. -/
theorem c8_counterexample :
    (([[11, 12], [15, 16], [22, 33]] : List (List ℚ)).flatten.length = 2 * 3) ∧
    nodeSetValues [0, 1/10, 1/5, 3/10, 2/5, 1/2] 0 2 3
      [[11, 12], [15, 16], [22, 33]] = none := by
  constructor
  · decide
  · rw [nodeSetValues, if_neg]
    rintro ⟨h1, -⟩
    simp at h1

/-- Witness for C8 (amended): the `test_set_all` scenario — a 2×3 node at
offset 0 of a 6-element Store assigned a 2×3 value. -/
theorem c8_witness :
    (0 + 2 * 3 ≤ ([0, 1/10, 1/5, 3/10, 2/5, 1/2] : List ℚ).length) ∧
    (((([[11, 12, 13], [15, 16, 66]] : List (List ℚ)).length ≠ 2 ∨
        ∃ v ∈ ([[11, 12, 13], [15, 16, 66]] : List (List ℚ)), v.length ≠ 3) →
      nodeSetValues [0, 1/10, 1/5, 3/10, 2/5, 1/2] 0 2 3
        [[11, 12, 13], [15, 16, 66]] = none) ∧
    (([[11, 12, 13], [15, 16, 66]] : List (List ℚ)).length = 2 →
      (∀ v ∈ ([[11, 12, 13], [15, 16, 66]] : List (List ℚ)), v.length = 3) →
      ∃ Q, nodeSetValues [0, 1/10, 1/5, 3/10, 2/5, 1/2] 0 2 3
          [[11, 12, 13], [15, 16, 66]] = some Q ∧
        nodeRead Q 0 2 3 = [[11, 12, 13], [15, 16, 66]] ∧
        (∀ i j : Nat, i < 2 → j < 3 →
          Q.getD (0 + i * 3 + j) 0 =
            (([[11, 12, 13], [15, 16, 66]] : List (List ℚ)).getD i []).getD j 0) ∧
        (∀ p : Nat, p < 0 →
          Q.getD p 0 = ([0, 1/10, 1/5, 3/10, 2/5, 1/2] : List ℚ).getD p 0) ∧
        (∀ p : Nat, 0 + 2 * 3 ≤ p →
          Q.getD p 0 = ([0, 1/10, 1/5, 3/10, 2/5, 1/2] : List ℚ).getD p 0))) :=
  ⟨by decide,
   c8_assign_values [0, 1/10, 1/5, 3/10, 2/5, 1/2] 0 2 3
     [[11, 12, 13], [15, 16, 66]] (by decide)⟩

end Morphic
